import Mathlib

/-!
# Verification of `vex_pic/hax.c`

A shallow embedding of the hardware-facing core of the robot controller
(`src/vex_pic/hax.c`): the analog codec (`analog_oi_get`, `analog_set`), the
logical-pin mapper (`pin_set_io`, `digital_get`), the interrupt dispatcher
(`interrupt_handler`, `interrupt_enable`, `interrupt_reg_isr`), the control
mode (`mode_get`, `mode_set`), the new-data flag (`new_data_received`) and the
initialisation (`setup_1`).

Machine integers are `Nat`/`Int` with explicit wrap-around: a `uint8_t` store
is `% 256`, an `int8_t` store is `toInt8`.  Memory-mapped registers and the
file-scope variables of `hax.c` are the fields of `Globals`.
-/

namespace Hax

/-! ## Machine integers -/

/-- Conversion of an integer to `int8_t` (two's complement wrap-around). -/
def toInt8 (x : Int) : Int := (x + 128) % 256 - 128

/-- Conversion of an integer to `uint8_t` (reduction modulo 256). -/
def toUInt8 (x : Int) : Nat := (x % 256).toNat

/-! ## Constants -/

/-- The C macro `kVPMaxMotors`. -/
def kVPMaxMotors : Nat := 8

/-- The C macro `kVPNumOIInputs`. -/
def kVPNumOIInputs : Nat := 16

/-- Modelled from the spec: `kAnalogSplit` is declared in `hax.h`, which is not
among the sources; its value 127 is the one documented by the comment
`127 <= ain < (127 + 16)` inside `analog_oi_get`. -/
def kAnalogSplit : Nat := 127

/-! ## State -/

/-- Modelled from the spec: the command buffer `TxData` (declared in
`vex_pic/master.h`, not among the sources): the PWM output slots `rc_pwm[]`
and the PWM-enable mask `pwm_mask.a`. -/
structure TxData where
  rc_pwm : Nat → Nat
  pwm_mask : Nat

/-- Modelled from the spec: the state buffer `RxData` (declared in
`vex_pic/master.h`, not among the sources): the operator-analog slots
`oi_analog[]` and the mode field `rcmode.mode.autonomous`. -/
structure RxData where
  oi_analog : Nat → Nat
  autonomous : Nat

/-- The registers and file-scope variables that `hax.c` reads and writes. -/
structure Globals where
  TRISA : Nat
  TRISB : Nat
  TRISF : Nat
  TRISH : Nat
  PORTA : Nat
  PORTB : Nat
  PORTF : Nat
  PORTH : Nat
  INT2IF : Bool
  INT2IE : Bool
  INT3IF : Bool
  INT3IE : Bool
  INTEDG2 : Bool
  INTEDG3 : Bool
  RBIF : Bool
  RBIE : Bool
  portb : Nat
  txdata : TxData
  rxdata : RxData
  NEW_SPI_DATA : Bool
  isr_callbacks : Nat → Nat

/-- A concrete state: every register zero, `portb = 0xFF` as its initialiser
says, empty buffers and an empty handler table. -/
def Globals.zero : Globals :=
  { TRISA := 0, TRISB := 0, TRISF := 0, TRISH := 0,
    PORTA := 0, PORTB := 0, PORTF := 0, PORTH := 0,
    INT2IF := false, INT2IE := false, INT3IF := false, INT3IE := false,
    INTEDG2 := false, INTEDG3 := false, RBIF := false, RBIE := false,
    portb := 0xFF,
    txdata := { rc_pwm := fun _ => 0, pwm_mask := 0 },
    rxdata := { oi_analog := fun _ => 0, autonomous := 0 },
    NEW_SPI_DATA := false,
    isr_callbacks := fun _ => 0 }

/-! ## Analog codec and link state -/

/-- The decoding statements of `analog_oi_get`,
`int8_t v = raw - 128; return (v < 0) ? v + 1 : v;`, applied to the byte `raw`
read from `rxdata.oi_analog[]` (the specification calls this `decode_input`). -/
def decode_input (raw : Nat) : Int :=
  let v : Int := toInt8 ((raw : Int) - 128)
  toInt8 (if v < 0 then v + 1 else v)

/-- The encoding statements of `analog_set`,
`sp = (sp < 0 && sp != 128) ? sp - 1 : sp; val = sp + 128;`, with `sp` an
`int8_t` and `val` a `uint8_t` (the specification calls this
`encode_output`). -/
def encode_output (sp : Int) : Nat :=
  let sp1 : Int := toInt8 (if sp < 0 ∧ sp ≠ 128 then sp - 1 else sp)
  toUInt8 (sp1 + 128)

/-- The C function `analog_oi_get`. -/
def analog_oi_get (ain : Nat) (g : Globals) : Int :=
  if kAnalogSplit ≤ ain ∧ ain < kAnalogSplit + kVPNumOIInputs then
    decode_input (g.rxdata.oi_analog (ain - kAnalogSplit))
  else
    0

/-- The C function `analog_set`; `sp` is an `int8_t`. -/
def analog_set (aout : Nat) (sp : Int) (g : Globals) : Globals :=
  if aout < kVPMaxMotors then
    { g with txdata :=
        { g.txdata with rc_pwm := Function.update g.txdata.rc_pwm aout (encode_output sp) } }
  else
    g

/-- The C function `motor_set`. -/
def motor_set (aout : Nat) (sp : Int) (g : Globals) : Globals :=
  analog_set aout sp g

/-- The C function `servo_set`. -/
def servo_set (aout : Nat) (sp : Int) (g : Globals) : Globals :=
  analog_set aout sp g

/-! ## Digital pins -/

/-- Modelled from the spec: the enumeration `PinMode` (declared in `hax.h`,
not among the sources) with its two values `kInput` and `kOutput`. -/
inductive PinMode where
  | kInput
  | kOutput
  deriving DecidableEq, Repr

/-- The C operator `~` on an `int` holding a value below `2^16`. -/
def bitNot (y : Nat) : Nat := 0xFFFF ^^^ y

/-- The C macro `BIT_HI(x, i)`, `x |= 1 << i`, on an 8-bit register. -/
def BIT_HI (x i : Nat) : Nat := (x ||| (1 <<< i)) % 256

/-- The C macro `BIT_LO(x, i)`, `x &= ~(1 << i)`, on an 8-bit register. -/
def BIT_LO (x i : Nat) : Nat := (x &&& bitNot (1 <<< i)) % 256

/-- The C macro `BIT_SET(x, i, v)`. -/
def BIT_SET (x i v : Nat) : Nat := if v ≠ 0 then BIT_HI x i else BIT_LO x i

/-- The C macro `BIT_GET(reg, index)`, `(reg & 1 << index) >> index`. -/
def BIT_GET (reg index : Nat) : Nat := (reg &&& (1 <<< index)) >>> index

/-- The C function `pin_set_io`. -/
def pin_set_io (i : Nat) (mode : PinMode) (g : Globals) : Globals :=
  let bit : Nat := if mode = PinMode.kInput then 1 else 0
  match i with
  | 0 | 1 | 2 | 3 => { g with TRISA := BIT_SET g.TRISA i bit }
  | 4 => { g with TRISA := BIT_SET g.TRISA 5 bit }
  | 5 | 6 | 7 | 8 | 9 | 10 | 11 => { g with TRISF := BIT_SET g.TRISF (i - 5) bit }
  | 12 | 13 | 14 | 15 => { g with TRISH := BIT_SET g.TRISH ((i - 12) + 4) bit }
  | _ => g

/-- The C function `digital_get`; the result is an `int8_t`. -/
def digital_get (i : Nat) (g : Globals) : Int :=
  match i with
  | 0 | 1 | 2 | 3 => toInt8 (BIT_GET g.PORTA i)
  | 4 => toInt8 (BIT_GET g.PORTA 5)
  | 5 | 6 | 7 | 8 | 9 | 10 | 11 => toInt8 (BIT_GET g.PORTF (i - 5))
  | 12 | 13 | 14 | 15 => toInt8 (BIT_GET g.PORTH ((i - 12) + 4))
  | _ => -1

/-- The three register groups the logical pins are spread over
(`TRISA`/`PORTA`, `TRISF`/`PORTF`, `TRISH`/`PORTH`). -/
inductive PinReg where
  | A
  | F
  | H
  deriving DecidableEq, Repr

/-- The pin table as the specification words it: pins 0..3 are bits 0..3 of
register A, pin 4 is bit 5 of A, pins 5..11 are bits 0..6 of F, pins 12..15 are
bits 4..7 of H.  Stated independently of `pin_set_io` and `digital_get`, to be
compared with them. -/
def pinTable (p : Nat) : PinReg × Nat :=
  if p < 4 then (PinReg.A, p)
  else if p = 4 then (PinReg.A, 5)
  else if p < 12 then (PinReg.F, p - 5)
  else (PinReg.H, p - 8)

/-- The direction register of a group. -/
def Globals.tris (g : Globals) : PinReg → Nat
  | PinReg.A => g.TRISA
  | PinReg.F => g.TRISF
  | PinReg.H => g.TRISH

/-- The input register of a group. -/
def Globals.port (g : Globals) : PinReg → Nat
  | PinReg.A => g.PORTA
  | PinReg.F => g.PORTF
  | PinReg.H => g.PORTH

/-- Logical pin `p` resolves to the (register group, bit) pair `loc`:
`pin_set_io p` writes the direction bit at `loc` and `digital_get p` reads the
input bit at `loc`, in every state. -/
def resolvesTo (p : Nat) (loc : PinReg × Nat) : Prop :=
  loc.2 < 8 ∧
  (∀ (mode : PinMode) (g : Globals),
    ((pin_set_io p mode g).tris loc.1).testBit loc.2 = decide (mode = PinMode.kInput)) ∧
  (∀ g : Globals,
    digital_get p g = if (g.port loc.1).testBit loc.2 = true then 1 else 0)

/-! ## Interrupt dispatch -/

/-- The observable steps of a run of `interrupt_handler`: the store
`portb_old = portb` of value `v`, and the call `isr_callbacks[src]()` that
enters the routine at address `fn`. -/
inductive Event where
  | snapshot (v : Nat)
  | call (src : Nat) (fn : Nat)
  deriving DecidableEq, Repr

/-- The file-scope state together with the function-local statics `delta` and
`portb_old` of `interrupt_handler` (out of reach of every other function) and
the trace of observable steps taken so far. -/
structure Machine where
  g : Globals
  delta : Nat
  portb_old : Nat
  trace : List Event

/-- The machine at program start: statics are zero-initialised. -/
def Machine.start (g : Globals) : Machine :=
  { g := g, delta := 0, portb_old := 0, trace := [] }

/-- The C function `interrupt_reg_isr`; a routine is named by its address and
the null pointer is 0. -/
def interrupt_reg_isr (index isr : Nat) (g : Globals) : Globals :=
  { g with isr_callbacks := Function.update g.isr_callbacks index isr }

/-- The call `isr_callbacks[src]()`: `code fn` is the effect of the routine at
address `fn` on the file-scope state. -/
def callIsr (code : Nat → Globals → Globals) (src : Nat) (m : Machine) : Machine :=
  { m with g := code (m.g.isr_callbacks src) m.g,
           trace := m.trace ++ [Event.call src (m.g.isr_callbacks src)] }

/-- The C function `interrupt_handler`. -/
def interrupt_handler (code : Nat → Globals → Globals) (m : Machine) : Machine :=
  if m.g.INT2IF = true ∧ m.g.INT2IE = true then
    let m1 : Machine := { m with g := { m.g with INT2IF := false } }
    if m1.g.isr_callbacks 0 ≠ 0 then callIsr code 0 m1 else m1
  else if m.g.INT3IF = true ∧ m.g.INT3IE = true then
    let m1 : Machine := { m with g := { m.g with INT3IF := false } }
    if m1.g.isr_callbacks 1 ≠ 0 then callIsr code 1 m1 else m1
  else if m.g.RBIF = true ∧ m.g.RBIE = true then
    let m1 : Machine := { m with g := { m.g with portb := m.g.PORTB % 256 } }
    let m2 : Machine := { m1 with g := { m1.g with RBIF := false } }
    let m3 : Machine := { m2 with delta := (m2.g.portb ^^^ m2.portb_old) % 256 }
    let m4 : Machine := { m3 with portb_old := m3.g.portb % 256,
                                  trace := m3.trace ++ [Event.snapshot (m3.g.portb % 256)] }
    let m5 : Machine :=
      if m4.delta &&& 0x10 ≠ 0 ∧ m4.g.isr_callbacks 2 ≠ 0 then callIsr code 2 m4 else m4
    let m6 : Machine :=
      if m5.delta &&& 0x20 ≠ 0 ∧ m5.g.isr_callbacks 3 ≠ 0 then callIsr code 3 m5 else m5
    let m7 : Machine :=
      if m6.delta &&& 0x40 ≠ 0 ∧ m6.g.isr_callbacks 4 ≠ 0 then callIsr code 4 m6 else m6
    if m7.delta &&& 0x80 ≠ 0 ∧ m7.g.isr_callbacks 5 ≠ 0 then callIsr code 5 m7 else m7
  else
    m

/-- The statements of the port-change branch of `interrupt_handler` that come
before the first conditional call: `portb = PORTB; INTCONbits.RBIF = 0;
delta = portb ^ portb_old; portb_old = portb;`. -/
def sharedPrologue (m : Machine) : Machine :=
  let m1 : Machine := { m with g := { m.g with portb := m.g.PORTB % 256 } }
  let m2 : Machine := { m1 with g := { m1.g with RBIF := false } }
  let m3 : Machine := { m2 with delta := (m2.g.portb ^^^ m2.portb_old) % 256 }
  { m3 with portb_old := m3.g.portb % 256,
            trace := m3.trace ++ [Event.snapshot (m3.g.portb % 256)] }

/-- One conditional call of the port-change branch of `interrupt_handler`:
`if (delta & bit && isr_callbacks[src]) isr_callbacks[src]();`. -/
def sharedStep (code : Nat → Globals → Globals) (src bit : Nat) (m : Machine) : Machine :=
  if m.delta &&& bit ≠ 0 ∧ m.g.isr_callbacks src ≠ 0 then callIsr code src m else m

/-- The file-scope state in which the first routine of a port-change run
starts: `portb` holds the port just read and `RBIF` is cleared. -/
def sharedEntry (g : Globals) : Globals :=
  { g with portb := g.PORTB % 256, RBIF := false }

/-- The calls recorded in a trace, as (source index, routine address) pairs. -/
def callsOf : List Event → List (Nat × Nat)
  | [] => []
  | Event.call src fn :: es => (src, fn) :: callsOf es
  | Event.snapshot _ :: es => callsOf es

/-- The values stored into `portb_old` recorded in a trace. -/
def snapshotsOf : List Event → List Nat
  | [] => []
  | Event.snapshot v :: es => v :: snapshotsOf es
  | Event.call _ _ :: es => snapshotsOf es

/-- The bit of `PORTB` that belongs to a shared-line source, as the
specification lists them: 0x10, 0x20, 0x40, 0x80 for sources 2, 3, 4, 5. -/
def sourceBit : Nat → Nat
  | 2 => 0x10
  | 3 => 0x20
  | 4 => 0x40
  | 5 => 0x80
  | _ => 0

/-- The service condition of the port-change branch: the shared flag is
pending and enabled and neither dedicated line is pending and enabled. -/
def servesShared (g : Globals) : Prop :=
  g.RBIF = true ∧ g.RBIE = true ∧
  ¬ (g.INT2IF = true ∧ g.INT2IE = true) ∧ ¬ (g.INT3IF = true ∧ g.INT3IE = true)

instance servesShared.decidable (g : Globals) : Decidable (servesShared g) :=
  inferInstanceAs (Decidable (_ ∧ _ ∧ _ ∧ _))

/-- A sample set of routines: routine 7 stores 200 in PWM slot 0, routine 9
clears `TRISA`, any other address does nothing. -/
def sampleCode (fn : Nat) (g : Globals) : Globals :=
  if fn = 7 then { g with txdata := { g.txdata with rc_pwm := Function.update g.txdata.rc_pwm 0 200 } }
  else if fn = 9 then { g with TRISA := 0 }
  else g

/-- A sample machine about to serve a port change: `PORTB = 0x90`, previous
snapshot 0, routine 7 bound to source 2 and routine 9 bound to source 5. -/
def sampleMachine : Machine :=
  { g := { Globals.zero with
             PORTB := 0x90, RBIF := true, RBIE := true,
             isr_callbacks := fun k => if k = 2 then 7 else if k = 5 then 9 else 0 },
    delta := 0, portb_old := 0, trace := [] }

/-! ## Control mode -/

/-- Modelled from the spec: the enumeration `CtrlMode` (declared in `hax.h`,
not among the sources) with its two values `kAuton` and `kTelop`. -/
inductive CtrlMode where
  | kAuton
  | kTelop
  deriving DecidableEq, Repr

/-- The C function `mode_get`: the field is tested for being non-zero. -/
def mode_get (g : Globals) : CtrlMode :=
  if g.rxdata.autonomous ≠ 0 then CtrlMode.kAuton else CtrlMode.kTelop

/-- The C function `mode_set`.  The parameter `w` is the width in bits of the
field `rxdata.rcmode.mode.autonomous`, whose declaration (`vex_pic/master.h`)
is not among the sources; the store keeps the low `w` bits of the value.  The
specification describes a one-byte field, `w = 8`. -/
def mode_set (w : Nat) (mode : CtrlMode) (g : Globals) : Globals :=
  { g with rxdata :=
      { g.rxdata with
          autonomous := (if mode = CtrlMode.kAuton then 0x02 else 0x00) % 2 ^ w } }

/-! ## Enabling interrupts -/

/-- A store of 1 into the one-bit field number `i` of an 8-bit register, as in
`TRISBbits.TRISB4 = 1`. -/
def bitfieldHi (x i : Nat) : Nat := (x ||| (1 <<< i)) % 256

/-- The C function `interrupt_enable`. -/
def interrupt_enable (index : Nat) (g : Globals) : Globals :=
  match index with
  | 0 =>
    let g1 : Globals := { g with TRISB := bitfieldHi g.TRISB 2 }
    let g2 : Globals := { g1 with INT2IF := false }
    let g3 : Globals := { g2 with INTEDG2 := true }
    { g3 with INT2IE := true }
  | 1 =>
    let g1 : Globals := { g with TRISB := bitfieldHi g.TRISB 3 }
    let g2 : Globals := { g1 with INTEDG3 := true }
    let g3 : Globals := { g2 with INT3IF := false }
    { g3 with INT3IE := true }
  | 2 | 3 | 4 | 5 =>
    let g1 : Globals := { g with TRISB := bitfieldHi g.TRISB 4 }
    let g2 : Globals := { g1 with TRISB := bitfieldHi g1.TRISB 5 }
    let g3 : Globals := { g2 with TRISB := bitfieldHi g2.TRISB 6 }
    let g4 : Globals := { g3 with TRISB := bitfieldHi g3.TRISB 7 }
    let g5 : Globals := { g4 with RBIF := false }
    { g5 with RBIE := true }
  | _ => g

/-- The enable bit that gates a source in `interrupt_handler`: `INT2IE` for
source 0, `INT3IE` for source 1, `RBIE` for the shared sources 2..5. -/
def enableBit (g : Globals) : Nat → Bool
  | 0 => g.INT2IE
  | 1 => g.INT3IE
  | _ => g.RBIE

/-- The pending flag of a source: `INT2IF` for source 0, `INT3IF` for source
1, `RBIF` for the shared sources 2..5. -/
def flagBit (g : Globals) : Nat → Bool
  | 0 => g.INT2IF
  | 1 => g.INT3IF
  | _ => g.RBIF

/-- The three pending flags tested by `interrupt_handler`. -/
def flagsOf (g : Globals) : Bool × Bool × Bool := (g.INT2IF, g.INT3IF, g.RBIF)

/-- The statement `INTCON3bits.INT2IF = 0;`. -/
def clearINT2IF (g : Globals) : Globals := { g with INT2IF := false }

/-- The statement `INTCON3bits.INT3IF = 0;`. -/
def clearINT3IF (g : Globals) : Globals := { g with INT3IF := false }

/-- A sample machine with every source pending, enabled and bound: routine
`10 + k` is bound to source `k`, `PORTB = 0xF0` against a zero snapshot. -/
def busyMachine : Machine :=
  { g := { Globals.zero with
             PORTB := 0xF0,
             INT2IF := true, INT2IE := true, INT3IF := true, INT3IE := true,
             RBIF := true, RBIE := true,
             isr_callbacks := fun k => 10 + k },
    delta := 0, portb_old := 0, trace := [] }

/-! ## Initialisation and the new-data flag -/

/-- The C function `setup_1`, on the state of `Globals`.  `ifi` is the effect
of the library call `IFI_Initialization()`; the other library calls
(`Open1USART`, `Delay1KTCYx`, `_puts`, `OpenADC`) act on the serial port, the
clock and the converter, which are not part of `Globals`. -/
def setup_1 (ifi : Globals → Globals) (g : Globals) : Globals :=
  let g1 : Globals := ifi g
  let g2 : Globals := { g1 with portb := g1.PORTB % 256 }
  let g3 : Globals := { g2 with NEW_SPI_DATA := false }
  let g4 : Globals := { g3 with txdata := { g3.txdata with pwm_mask := 0xFF } }
  (List.range 16).foldl (fun acc i => pin_set_io i PinMode.kInput acc) g4

/-- The C function `new_data_received`. -/
def new_data_received (g : Globals) : Bool := g.NEW_SPI_DATA

/-- Modelled from the spec: `consume_new_state`, the consumer's step that
clears the "new data available" flag.  In `hax.c` the consumer's step is
`loop_1`, whose body `Getdata(&rxdata)` belongs to the IFI library
(`vex_pic/ifi_lib.h`), which is not among the sources. -/
def consume_new_state (g : Globals) : Globals := { g with NEW_SPI_DATA := false }

/-- Modelled from the spec: the transport delivering new data: the state
buffer is overwritten wholesale and the "new data available" flag is set.  The
receive routine belongs to the IFI library, which is not among the
sources. -/
def transport_deliver (rx : RxData) (g : Globals) : Globals :=
  { g with rxdata := rx, NEW_SPI_DATA := true }

/-- A call, by normal-context code, of one of the functions of `hax.c`
embedded above, or of `consume_new_state`. -/
inductive Call where
  | setup_1
  | new_data_received
  | consume_new_state
  | mode_get
  | mode_set (w : Nat) (mode : CtrlMode)
  | pin_set_io (i : Nat) (mode : PinMode)
  | digital_get (i : Nat)
  | analog_oi_get (ain : Nat)
  | analog_set (aout : Nat) (sp : Int)
  | motor_set (aout : Nat) (sp : Int)
  | servo_set (aout : Nat) (sp : Int)
  | interrupt_reg_isr (index isr : Nat)
  | interrupt_enable (index : Nat)

/-- The effect of a call on the file-scope state; the functions that only
return a value leave it as it is. -/
def Call.run (ifi : Globals → Globals) : Call → Globals → Globals
  | Call.setup_1, g => Hax.setup_1 ifi g
  | Call.new_data_received, g => g
  | Call.consume_new_state, g => Hax.consume_new_state g
  | Call.mode_get, g => g
  | Call.mode_set w mode, g => Hax.mode_set w mode g
  | Call.pin_set_io i mode, g => Hax.pin_set_io i mode g
  | Call.digital_get _, g => g
  | Call.analog_oi_get _, g => g
  | Call.analog_set aout sp, g => Hax.analog_set aout sp g
  | Call.motor_set aout sp, g => Hax.motor_set aout sp g
  | Call.servo_set aout sp, g => Hax.servo_set aout sp g
  | Call.interrupt_reg_isr index isr, g => Hax.interrupt_reg_isr index isr g
  | Call.interrupt_enable index, g => Hax.interrupt_enable index g

/-- A step of the program other than a delivery by the transport: a call from
normal context, or one run of `interrupt_handler`. -/
inductive Step where
  | api (c : Call)
  | irq

/-- The effect of a step on the machine. -/
def Step.run (ifi : Globals → Globals) (code : Nat → Globals → Globals) :
    Step → Machine → Machine
  | Step.api c, m => { m with g := c.run ifi m.g }
  | Step.irq, m => interrupt_handler code m

/-- The effect of a sequence of steps, in order. -/
def runSteps (ifi : Globals → Globals) (code : Nat → Globals → Globals)
    (steps : List Step) (m : Machine) : Machine :=
  steps.foldl (fun acc st => st.run ifi code acc) m

/-- The scenario of an unchanged port: `PORTB` holds 0x10 throughout;
`setup_1` runs on the zero state, routine 7 is registered for source 2, source
2 is enabled, and the port-change flag is then raised. -/
def unchangedPortMachine : Machine :=
  let g0 : Globals := { Globals.zero with PORTB := 0x10 }
  let g1 : Globals := setup_1 (fun g => g) g0
  let g2 : Globals := interrupt_reg_isr 2 7 g1
  let g3 : Globals := interrupt_enable 2 g2
  { Machine.start g3 with g := { g3 with RBIF := true } }

/-! ## Arithmetic of the bit macros -/

theorem BIT_HI_testBit (x i j : Nat) (hj : j < 8) :
    (BIT_HI x i).testBit j = (x.testBit j || decide (i = j)) := by
  have h256 : (256 : Nat) = 2 ^ 8 := by norm_num
  unfold BIT_HI
  rw [h256, Nat.testBit_mod_two_pow, Nat.testBit_or, Nat.one_shiftLeft, Nat.testBit_two_pow]
  simp [hj]

theorem BIT_LO_testBit (x i j : Nat) (hj : j < 8) :
    (BIT_LO x i).testBit j = (x.testBit j && !decide (i = j)) := by
  have h256 : (256 : Nat) = 2 ^ 8 := by norm_num
  have hFFFF : (0xFFFF : Nat) = 2 ^ 16 - 1 := by norm_num
  have hj16 : j < 16 := by omega
  unfold BIT_LO bitNot
  rw [h256, Nat.testBit_mod_two_pow, Nat.testBit_and, Nat.testBit_xor, hFFFF,
    Nat.testBit_two_pow_sub_one, Nat.one_shiftLeft, Nat.testBit_two_pow]
  simp [hj, hj16]

theorem BIT_SET_testBit (x i v j : Nat) (hj : j < 8) :
    (BIT_SET x i v).testBit j = if i = j then decide (v ≠ 0) else x.testBit j := by
  unfold BIT_SET
  by_cases hv : v ≠ 0
  · rw [if_pos hv, BIT_HI_testBit x i j hj]
    by_cases hij : i = j <;> simp [hij, hv]
  · rw [if_neg hv, BIT_LO_testBit x i j hj]
    by_cases hij : i = j <;> simp [hij, hv]

theorem BIT_SET_lt (x i v : Nat) : BIT_SET x i v < 256 := by
  unfold BIT_SET BIT_HI BIT_LO
  split_ifs <;> exact Nat.mod_lt _ (by norm_num)

theorem BIT_GET_eq (x i : Nat) : BIT_GET x i = if x.testBit i = true then 1 else 0 := by
  apply Nat.eq_of_testBit_eq
  intro k
  unfold BIT_GET
  rw [Nat.testBit_shiftRight, Nat.testBit_and, Nat.one_shiftLeft, Nat.testBit_two_pow]
  by_cases hk : k = 0
  · subst hk
    by_cases hx : x.testBit i <;> simp [hx]
  · have hne : ¬ i = i + k := by omega
    have h1 : (1 : Nat).testBit k = false := by
      have h2 : (1 : Nat) = 2 ^ 0 := rfl
      rw [h2, Nat.testBit_two_pow]; simp; omega
    by_cases hx : x.testBit i = true
    · rw [if_pos hx, h1]; simp [hne]
    · rw [if_neg hx]; simp [hne]

/-! ## Digital pins: the code against the pin table -/

/-- Every bit `j < 8` of every direction register after `pin_set_io p mode`,
for a valid pin: the bit at the table position of `p` is 1 for `kInput` and 0
for `kOutput`, every other bit is the one before. -/
theorem pin_set_io_tris (p : Nat) (hp : p < 16) (mode : PinMode) (g : Globals)
    (r : PinReg) (j : Nat) (hj : j < 8) :
    ((pin_set_io p mode g).tris r).testBit j
      = if pinTable p = (r, j) then decide (mode = PinMode.kInput)
        else (g.tris r).testBit j := by
  interval_cases p <;> cases mode <;> cases r <;>
    simp [pin_set_io, pinTable, Globals.tris, BIT_SET_testBit, hj]

theorem pinTable_bit_lt (p : Nat) (hp : p < 16) : (pinTable p).2 < 8 := by
  interval_cases p <;> decide

theorem pinTable_injective (p q : Nat) (hp : p < 16) (hq : q < 16)
    (h : pinTable p = pinTable q) : p = q := by
  interval_cases p <;> interval_cases q <;> first | rfl | exact absurd h (by decide)

/-- For a valid pin `digital_get` is the input bit at the table position. -/
theorem digital_get_port (p : Nat) (hp : p < 16) (g : Globals) :
    digital_get p g
      = if (g.port (pinTable p).1).testBit (pinTable p).2 = true then 1 else 0 := by
  interval_cases p <;>
    simp only [digital_get, pinTable, Globals.port, BIT_GET_eq] <;>
    split_ifs <;> first | rfl | omega

theorem resolvesTo_pinTable (p : Nat) (hp : p < 16) : resolvesTo p (pinTable p) := by
  refine ⟨pinTable_bit_lt p hp, ?_, digital_get_port p hp⟩
  intro mode g
  rw [pin_set_io_tris p hp mode g _ _ (pinTable_bit_lt p hp)]
  simp

theorem resolvesTo_unique (p : Nat) (hp : p < 16) (loc : PinReg × Nat)
    (h : resolvesTo p loc) : loc = pinTable p := by
  obtain ⟨hlt, hset, _⟩ := h
  have h1 := hset PinMode.kInput Globals.zero
  rw [pin_set_io_tris p hp PinMode.kInput Globals.zero loc.1 loc.2 hlt] at h1
  by_contra hne
  have hne2 : ¬ pinTable p = (loc.1, loc.2) := fun e => hne e.symm
  rw [if_neg hne2] at h1
  cases hl : loc.1 <;> rw [hl] at h1 <;> simp [Globals.tris, Globals.zero] at h1

theorem digital_get_invalid (p : Nat) (hp : 16 ≤ p) (g : Globals) :
    digital_get p g = -1 := by
  unfold digital_get
  split <;> first | rfl | omega

/-! ## Digital pins: theorems -/

/-- C2. For every logical pin `p < 16` and every mode, `pin_set_io p mode`
writes exactly one direction bit, the one at the table position of `p` (pins
0..3: `TRISA` bit `p`; pin 4: `TRISA` bit 5; pins 5..11: `TRISF` bit `p - 5`;
pins 12..15: `TRISH` bit `p - 8`), making it 1 for `kInput` and 0 for
`kOutput`; every other bit of `TRISA`, `TRISF` and `TRISH` is unchanged, and a
register that does not hold the pin is unchanged as a whole. -/
theorem pin_set_io_writes_one_bit (p : Nat) (mode : PinMode) (g : Globals) (hp : p < 16) :
    ((p < 4 → pinTable p = (PinReg.A, p)) ∧
     (p = 4 → pinTable p = (PinReg.A, 5)) ∧
     (5 ≤ p → p < 12 → pinTable p = (PinReg.F, p - 5)) ∧
     (12 ≤ p → pinTable p = (PinReg.H, p - 8))) ∧
    (pinTable p).2 < 8 ∧
    ((pin_set_io p mode g).tris (pinTable p).1).testBit (pinTable p).2
      = decide (mode = PinMode.kInput) ∧
    (∀ (r : PinReg) (j : Nat), j < 8 → (r, j) ≠ pinTable p →
      ((pin_set_io p mode g).tris r).testBit j = (g.tris r).testBit j) ∧
    (∀ r : PinReg, r ≠ (pinTable p).1 → (pin_set_io p mode g).tris r = g.tris r) := by
  refine ⟨⟨?_, ?_, ?_, ?_⟩, pinTable_bit_lt p hp, ?_, ?_, ?_⟩
  · intro h; simp [pinTable, h]
  · intro h; subst h; rfl
  · intro h5 h12
    have h4 : ¬ p < 4 := by omega
    have h4' : ¬ p = 4 := by omega
    simp [pinTable, h4, h4', h12]
  · intro h12
    have h4 : ¬ p < 4 := by omega
    have h4' : ¬ p = 4 := by omega
    have h12' : ¬ p < 12 := by omega
    simp [pinTable, h4, h4', h12']
  · rw [pin_set_io_tris p hp mode g _ _ (pinTable_bit_lt p hp)]
    simp
  · intro r j hj hne
    rw [pin_set_io_tris p hp mode g r j hj, if_neg (fun e => hne e.symm)]
  · intro r hr
    interval_cases p <;> cases r <;>
      first
        | rfl
        | exact absurd rfl hr

/-- Witness of C2: pin 4 set to input on a zero `TRISA` raises bit 5 only;
pin 13 set to output on `TRISH = 0xFF` clears bit 5 only. -/
theorem pin_set_io_writes_one_bit_witness :
    (pin_set_io 4 PinMode.kInput Globals.zero).TRISA.testBit 5 = true ∧
    (pin_set_io 13 PinMode.kOutput { Globals.zero with TRISH := 0xFF }).TRISH.testBit 5
      = false :=
  ⟨(pin_set_io_writes_one_bit 4 PinMode.kInput Globals.zero (by decide)).2.2.1,
   (pin_set_io_writes_one_bit 13 PinMode.kOutput { Globals.zero with TRISH := 0xFF }
      (by decide)).2.2.1⟩

/-- C3. `digital_get` carries three states: for every logical pin `p < 16` it
returns 0 or 1, namely the bit of the input register at the table position of
`p`, which is the position whose direction bit `pin_set_io p` writes; for
every pin index `p ≥ 16` it returns -1, whatever the registers hold. -/
theorem digital_get_three_states (p : Nat) (g : Globals) :
    (p < 16 →
      digital_get p g
          = (if (g.port (pinTable p).1).testBit (pinTable p).2 = true then 1 else 0) ∧
      (digital_get p g = 0 ∨ digital_get p g = 1) ∧
      (∀ mode : PinMode,
        ((pin_set_io p mode g).tris (pinTable p).1).testBit (pinTable p).2
          = decide (mode = PinMode.kInput))) ∧
    (16 ≤ p → digital_get p g = -1) := by
  refine ⟨?_, fun hp => digital_get_invalid p hp g⟩
  intro hp
  refine ⟨digital_get_port p hp g, ?_, ?_⟩
  · rw [digital_get_port p hp g]
    split_ifs
    · exact Or.inr rfl
    · exact Or.inl rfl
  · intro mode
    exact (resolvesTo_pinTable p hp).2.1 mode g

/-- Witness of C3: with `PORTH = 0x20`, pin 13 reads 1, pin 12 reads 0 and
index 16 reads -1. -/
theorem digital_get_three_states_witness :
    digital_get 13 { Globals.zero with PORTH := 0x20 } = 1 ∧
    digital_get 12 { Globals.zero with PORTH := 0x20 } = 0 ∧
    digital_get 16 { Globals.zero with PORTH := 0x20 } = -1 :=
  ⟨((digital_get_three_states 13 { Globals.zero with PORTH := 0x20 }).1 (by decide)).1.trans
      (by decide),
   ((digital_get_three_states 12 { Globals.zero with PORTH := 0x20 }).1 (by decide)).1.trans
      (by decide),
   (digital_get_three_states 16 { Globals.zero with PORTH := 0x20 }).2 (by decide)⟩

/-- C4. The pin mapping is total and injective on `[0,16)`: every logical pin
`p < 16` resolves, in both `pin_set_io` and `digital_get`, to exactly one
(register, bit) pair; distinct pins `p ≠ q` resolve to different pairs; and
configuring `p` leaves the direction bit of `q` as it was. -/
theorem pin_mapping_total_injective (p q : Nat) (mode : PinMode) (g : Globals)
    (hp : p < 16) (hq : q < 16) (hne : p ≠ q) :
    (resolvesTo p (pinTable p) ∧ ∀ loc, resolvesTo p loc → loc = pinTable p) ∧
    (∀ lp lq, resolvesTo p lp → resolvesTo q lq → lp ≠ lq) ∧
    ((pin_set_io p mode g).tris (pinTable q).1).testBit (pinTable q).2
      = (g.tris (pinTable q).1).testBit (pinTable q).2 := by
  have hpq : pinTable p ≠ pinTable q := fun e => hne (pinTable_injective p q hp hq e)
  refine ⟨⟨resolvesTo_pinTable p hp, resolvesTo_unique p hp⟩, ?_, ?_⟩
  · intro lp lq h1 h2 e
    rw [resolvesTo_unique p hp lp h1, resolvesTo_unique q hq lq h2] at e
    exact hpq e
  · rw [pin_set_io_tris p hp mode g _ _ (pinTable_bit_lt q hq), if_neg hpq]

/-- Witness of C4: pins 4 and 5; configuring pin 4 as output on all-ones
direction registers leaves the direction bit of pin 5 (`TRISF` bit 0) set. -/
theorem pin_mapping_total_injective_witness :
    (pin_set_io 4 PinMode.kOutput
        { Globals.zero with TRISA := 0xFF, TRISF := 0xFF, TRISH := 0xFF }).TRISF.testBit 0
      = true :=
  ((pin_mapping_total_injective 4 5 PinMode.kOutput
      { Globals.zero with TRISA := 0xFF, TRISF := 0xFF, TRISH := 0xFF }
      (by decide) (by decide) (by decide)).2.2).trans (by decide)

/-! ## Arithmetic of the codec -/

theorem toInt8_of_range (x : Int) (hlo : -128 ≤ x) (hhi : x ≤ 127) : toInt8 x = x := by
  unfold toInt8
  omega

theorem decode_input_eq (r : Nat) (hr : r < 256) :
    decode_input r = if 128 ≤ r then (r : Int) - 128 else (r : Int) - 127 := by
  simp only [decode_input, toInt8]
  split_ifs <;> omega

theorem encode_output_nonneg (v : Int) (h0 : 0 ≤ v) (hhi : v ≤ 127) :
    (encode_output v : Int) = v + 128 := by
  simp only [encode_output, toInt8, toUInt8]
  split_ifs <;> omega

theorem encode_output_neg (v : Int) (hlo : -127 ≤ v) (h0 : v < 0) :
    (encode_output v : Int) = v + 127 := by
  simp only [encode_output, toInt8, toUInt8]
  split_ifs <;> omega

theorem encode_output_lt (v : Int) : encode_output v < 256 := by
  simp only [encode_output, toUInt8]
  omega

/-! ## Analog codec and link state: theorems -/

/-- C1. Codec round trip: for every value `v` with `-127 ≤ v ≤ 127` and every
valid output slot `aout < 8`, the byte that `analog_set aout v` stores in
`rc_pwm[aout]`, when it is the raw byte of an operator-input slot `j < 16`,
is decoded by `analog_oi_get` back to `v`. -/
theorem analog_codec_round_trip (aout j : Nat) (v : Int) (g g' : Globals)
    (haout : aout < 8) (hj : j < 16) (hlo : -127 ≤ v) (hhi : v ≤ 127)
    (hraw : g'.rxdata.oi_analog j = (analog_set aout v g).txdata.rc_pwm aout) :
    analog_oi_get (kAnalogSplit + j) g' = v ∧
      decode_input (encode_output v) = v := by
  have hstore : (analog_set aout v g).txdata.rc_pwm aout = encode_output v := by
    simp [analog_set, kVPMaxMotors, haout]
  have hdec : decode_input (encode_output v) = v := by
    rw [decode_input_eq _ (encode_output_lt v)]
    rcases lt_or_le v 0 with hneg | hpos
    · have h := encode_output_neg v hlo hneg
      split_ifs <;> omega
    · have h := encode_output_nonneg v hpos hhi
      split_ifs <;> omega
  refine ⟨?_, hdec⟩
  have hin : kAnalogSplit ≤ kAnalogSplit + j ∧
      kAnalogSplit + j < kAnalogSplit + kVPNumOIInputs := by
    simp only [kAnalogSplit, kVPNumOIInputs]; omega
  simp only [analog_oi_get, hin, and_self, if_true, Nat.add_sub_cancel_left]
  rw [hraw, hstore, hdec]

/-- Witness of C1: the value -5 written to slot 3 and read back through
operator-input slot 2. -/
theorem analog_codec_round_trip_witness :
    analog_oi_get (kAnalogSplit + 2)
        { Globals.zero with
            rxdata := { oi_analog := fun _ => (analog_set 3 (-5) Globals.zero).txdata.rc_pwm 3,
                        autonomous := 0 } } = -5 ∧
      decode_input (encode_output (-5)) = -5 :=
  analog_codec_round_trip 3 2 (-5) Globals.zero _ (by decide) (by decide) (by decide)
    (by decide) rfl

/-- C7. Out-of-range output writes are no-ops: for every slot index `aout ≥ 8`
and every value, `analog_set`, `motor_set` and `servo_set` return the state
they were given, so all 8 `rc_pwm` slots and the PWM-enable mask are
unchanged. -/
theorem analog_set_out_of_range (aout : Nat) (v : Int) (g : Globals) (h : 8 ≤ aout) :
    (analog_set aout v g = g ∧ motor_set aout v g = g ∧ servo_set aout v g = g) ∧
    (∀ t, t < 8 →
      (analog_set aout v g).txdata.rc_pwm t = g.txdata.rc_pwm t ∧
      (motor_set aout v g).txdata.rc_pwm t = g.txdata.rc_pwm t ∧
      (servo_set aout v g).txdata.rc_pwm t = g.txdata.rc_pwm t) ∧
    (analog_set aout v g).txdata.pwm_mask = g.txdata.pwm_mask ∧
    (motor_set aout v g).txdata.pwm_mask = g.txdata.pwm_mask ∧
    (servo_set aout v g).txdata.pwm_mask = g.txdata.pwm_mask := by
  have hnot : ¬ aout < kVPMaxMotors := by simp only [kVPMaxMotors]; omega
  have ha : analog_set aout v g = g := by simp only [analog_set, hnot, if_false]
  have hm : motor_set aout v g = g := ha
  have hs : servo_set aout v g = g := ha
  refine ⟨⟨ha, hm, hs⟩, ?_, ?_, ?_, ?_⟩
  · intro t _
    rw [ha, hm, hs]
    exact ⟨rfl, rfl, rfl⟩
  · rw [ha]
  · rw [hm]
  · rw [hs]

/-- Witness of C7: slot 8, value 100, on a buffer whose slot 0 holds 200. -/
theorem analog_set_out_of_range_witness :
    analog_set 8 100 (analog_set 0 72 Globals.zero) = analog_set 0 72 Globals.zero ∧
    motor_set 8 100 (analog_set 0 72 Globals.zero) = analog_set 0 72 Globals.zero ∧
    servo_set 8 100 (analog_set 0 72 Globals.zero) = analog_set 0 72 Globals.zero :=
  (analog_set_out_of_range 8 100 (analog_set 0 72 Globals.zero) (by decide)).1

/-- C8. In-range output write: for every slot `s < 8` and every value `v` (in
particular every signed 8-bit value), after `analog_set s v` slot `s` of the
command buffer holds the byte the codec computes for `v` (a value below 256,
which is `v + 128` for `0 ≤ v ≤ 127` and `v + 127` for `-127 ≤ v < 0`), every
other slot, the PWM-enable mask and the whole state buffer are unchanged; the
same holds through `motor_set` and `servo_set`. -/
theorem analog_set_in_range (s : Nat) (v : Int) (g : Globals) (hs : s < 8) :
    (analog_set s v g).txdata.rc_pwm s = encode_output v ∧
    (analog_set s v g).txdata.rc_pwm s < 256 ∧
    (0 ≤ v → v ≤ 127 → ((analog_set s v g).txdata.rc_pwm s : Int) = v + 128) ∧
    (-127 ≤ v → v < 0 → ((analog_set s v g).txdata.rc_pwm s : Int) = v + 127) ∧
    (∀ t, t ≠ s → (analog_set s v g).txdata.rc_pwm t = g.txdata.rc_pwm t) ∧
    (analog_set s v g).txdata.pwm_mask = g.txdata.pwm_mask ∧
    (analog_set s v g).rxdata = g.rxdata ∧
    motor_set s v g = analog_set s v g ∧ servo_set s v g = analog_set s v g := by
  have hin : s < kVPMaxMotors := by simp only [kVPMaxMotors]; exact hs
  have hst : (analog_set s v g).txdata.rc_pwm s = encode_output v := by
    simp only [analog_set, hin, if_true, Function.update_same]
  refine ⟨hst, ?_, ?_, ?_, ?_, ?_, ?_, rfl, rfl⟩
  · rw [hst]; exact encode_output_lt v
  · intro h0 h1; rw [hst]; exact encode_output_nonneg v h0 h1
  · intro h0 h1; rw [hst]; exact encode_output_neg v h0 h1
  · intro t ht
    simp only [analog_set, hin, if_true]
    exact Function.update_noteq ht _ _
  · simp only [analog_set, hin, if_true]
  · simp only [analog_set, hin, if_true]

/-- Witness of C8: the value -5 written to slot 3 of a buffer whose slot 1
already holds 200 stores 122 in slot 3 and keeps 200 in slot 1. -/
theorem analog_set_in_range_witness :
    (analog_set 3 (-5) (analog_set 1 72 Globals.zero)).txdata.rc_pwm 3 = 122 ∧
    (analog_set 3 (-5) (analog_set 1 72 Globals.zero)).txdata.rc_pwm 1 = 200 :=
  ⟨((analog_set_in_range 3 (-5) (analog_set 1 72 Globals.zero) (by decide)).1).trans
      (by decide),
   ((analog_set_in_range 3 (-5) (analog_set 1 72 Globals.zero) (by decide)).2.2.2.2.1 1
      (by decide)).trans (by decide)⟩

/-- C9. Out-of-range operator-input reads are neutral: for every index outside
`[kAnalogSplit, kAnalogSplit + 16)`, `analog_oi_get` returns 0 whatever the
state buffer holds. -/
theorem analog_oi_get_out_of_range (ain : Nat) (g : Globals)
    (h : ain < kAnalogSplit ∨ kAnalogSplit + 16 ≤ ain) :
    analog_oi_get ain g = 0 := by
  have hnot : ¬ (kAnalogSplit ≤ ain ∧ ain < kAnalogSplit + kVPNumOIInputs) := by
    simp only [kVPNumOIInputs]; omega
  simp only [analog_oi_get, hnot, if_false]

/-- Witness of C9: operator-input slot 16 (index `kAnalogSplit + 16`) on a
state buffer whose every byte is 255. -/
theorem analog_oi_get_out_of_range_witness :
    analog_oi_get (kAnalogSplit + 16)
      { Globals.zero with rxdata := { oi_analog := fun _ => 255, autonomous := 0 } } = 0 :=
  analog_oi_get_out_of_range (kAnalogSplit + 16) _ (Or.inr (Nat.le_refl _))

/-- C10. In-range operator-input read: for every slot `s < 16` holding the raw
byte `r`, `analog_oi_get (kAnalogSplit + s)` is `r - 128` when `r ≥ 128` and
`r - 127` when `r < 128`; the result lies in `[-127, 127]`; raw 127 and raw 128
both read as 0; and two raw bytes that read as the same value are equal or are
127 and 128. -/
theorem analog_oi_get_in_range (s r : Nat) (g : Globals)
    (hs : s < 16) (hr : r < 256) (hraw : g.rxdata.oi_analog s = r) :
    analog_oi_get (kAnalogSplit + s) g
        = (if 128 ≤ r then (r : Int) - 128 else (r : Int) - 127) ∧
    (-127 ≤ analog_oi_get (kAnalogSplit + s) g ∧ analog_oi_get (kAnalogSplit + s) g ≤ 127) ∧
    ((r = 127 ∨ r = 128) → analog_oi_get (kAnalogSplit + s) g = 0) ∧
    (∀ (s' r' : Nat) (g' : Globals), s' < 16 → r' < 256 → g'.rxdata.oi_analog s' = r' →
      analog_oi_get (kAnalogSplit + s') g' = analog_oi_get (kAnalogSplit + s) g →
      r' = r ∨ (r = 127 ∧ r' = 128) ∨ (r = 128 ∧ r' = 127)) := by
  have key : ∀ (s r : Nat) (g : Globals), s < 16 → r < 256 → g.rxdata.oi_analog s = r →
      analog_oi_get (kAnalogSplit + s) g
        = (if 128 ≤ r then (r : Int) - 128 else (r : Int) - 127) := by
    intro s r g hs hr hraw
    have hin : kAnalogSplit ≤ kAnalogSplit + s ∧
        kAnalogSplit + s < kAnalogSplit + kVPNumOIInputs := by
      simp only [kAnalogSplit, kVPNumOIInputs]; omega
    simp only [analog_oi_get, hin, and_self, if_true, Nat.add_sub_cancel_left]
    rw [hraw, decode_input_eq r hr]
  have h1 := key s r g hs hr hraw
  refine ⟨h1, ?_, ?_, ?_⟩
  · rw [h1]; split_ifs <;> omega
  · intro h; rw [h1]; split_ifs <;> omega
  · intro s' r' g' hs' hr' hraw' heq
    rw [h1, key s' r' g' hs' hr' hraw'] at heq
    split_ifs at heq <;> omega

/-- Witness of C10: raw byte 127 in operator-input slot 5. -/
theorem analog_oi_get_in_range_witness :
    analog_oi_get (kAnalogSplit + 5)
      { Globals.zero with rxdata := { oi_analog := fun _ => 127, autonomous := 0 } } = 0 :=
  ((analog_oi_get_in_range 5 127
      { Globals.zero with rxdata := { oi_analog := fun _ => 127, autonomous := 0 } }
      (by decide) (by decide) rfl).2.2.1) (Or.inl rfl)

/-! ## Interrupt dispatch: theorems -/

theorem callsOf_append (a b : List Event) : callsOf (a ++ b) = callsOf a ++ callsOf b := by
  induction a with
  | nil => rfl
  | cons e es ih => cases e <;> simp [callsOf, ih]

theorem snapshotsOf_append (a b : List Event) :
    snapshotsOf (a ++ b) = snapshotsOf a ++ snapshotsOf b := by
  induction a with
  | nil => rfl
  | cons e es ih => cases e <;> simp [snapshotsOf, ih]

theorem interrupt_handler_shared_eq (code : Nat → Globals → Globals) (m : Machine)
    (hserve : servesShared m.g) :
    interrupt_handler code m
      = sharedStep code 5 0x80 (sharedStep code 4 0x40 (sharedStep code 3 0x20
          (sharedStep code 2 0x10 (sharedPrologue m)))) := by
  obtain ⟨hF, hE, h2, h3⟩ := hserve
  unfold interrupt_handler
  rw [if_neg h2, if_neg h3, if_pos ⟨hF, hE⟩]
  rfl

theorem sharedPrologue_spec (m : Machine) (hPB : m.g.PORTB < 256) :
    (sharedPrologue m).portb_old = m.g.PORTB ∧
    (sharedPrologue m).delta = (m.g.PORTB ^^^ m.portb_old) % 256 ∧
    (sharedPrologue m).g.isr_callbacks = m.g.isr_callbacks ∧
    (sharedPrologue m).trace = m.trace ++ [Event.snapshot m.g.PORTB] := by
  have hmod : m.g.PORTB % 256 = m.g.PORTB := Nat.mod_eq_of_lt hPB
  simp only [sharedPrologue, hmod, and_self]

/-- One conditional call of the port-change branch, for arbitrary routines:
the statics are untouched and at most one call event is appended. -/
theorem sharedStep_frame (code : Nat → Globals → Globals) (src bit : Nat) (m : Machine) :
    (sharedStep code src bit m).portb_old = m.portb_old ∧
    (sharedStep code src bit m).delta = m.delta ∧
    ∃ r : List Event, (sharedStep code src bit m).trace = m.trace ++ r ∧
      snapshotsOf r = [] ∧ r.length ≤ 1 := by
  unfold sharedStep
  split_ifs
  · exact ⟨rfl, rfl, [Event.call src (m.g.isr_callbacks src)], rfl, rfl, Nat.le_refl _⟩
  · exact ⟨rfl, rfl, [], (List.append_nil _).symm, rfl, Nat.zero_le _⟩

/-- One conditional call of the port-change branch, for routines that leave
the handler table alone. -/
theorem sharedStep_spec (code : Nat → Globals → Globals)
    (htable : ∀ fn g, (code fn g).isr_callbacks = g.isr_callbacks)
    (src bit : Nat) (m : Machine) :
    (sharedStep code src bit m).g.isr_callbacks = m.g.isr_callbacks ∧
    (sharedStep code src bit m).delta = m.delta ∧
    (sharedStep code src bit m).trace
      = m.trace ++ (if m.delta &&& bit ≠ 0 ∧ m.g.isr_callbacks src ≠ 0
                    then [Event.call src (m.g.isr_callbacks src)] else []) := by
  unfold sharedStep
  split_ifs
  · exact ⟨htable _ _, rfl, rfl⟩
  · exact ⟨rfl, rfl, (List.append_nil _).symm⟩

/-- The trace of the port-change branch for routines that leave the handler
table alone: the snapshot store followed by the four conditional calls, each
decided by `delta` and the table entry. -/
theorem interrupt_handler_shared_trace (code : Nat → Globals → Globals) (m : Machine)
    (hserve : servesShared m.g) (hPB : m.g.PORTB < 256) (hold : m.portb_old < 256)
    (htable : ∀ fn g, (code fn g).isr_callbacks = g.isr_callbacks) :
    (interrupt_handler code m).delta = m.g.PORTB ^^^ m.portb_old ∧
    (interrupt_handler code m).trace
      = m.trace ++ [Event.snapshot m.g.PORTB]
        ++ (if (m.g.PORTB ^^^ m.portb_old) &&& 0x10 ≠ 0 ∧ m.g.isr_callbacks 2 ≠ 0
            then [Event.call 2 (m.g.isr_callbacks 2)] else [])
        ++ (if (m.g.PORTB ^^^ m.portb_old) &&& 0x20 ≠ 0 ∧ m.g.isr_callbacks 3 ≠ 0
            then [Event.call 3 (m.g.isr_callbacks 3)] else [])
        ++ (if (m.g.PORTB ^^^ m.portb_old) &&& 0x40 ≠ 0 ∧ m.g.isr_callbacks 4 ≠ 0
            then [Event.call 4 (m.g.isr_callbacks 4)] else [])
        ++ (if (m.g.PORTB ^^^ m.portb_old) &&& 0x80 ≠ 0 ∧ m.g.isr_callbacks 5 ≠ 0
            then [Event.call 5 (m.g.isr_callbacks 5)] else []) := by
  have hlt : m.g.PORTB ^^^ m.portb_old < 2 ^ 8 := Nat.xor_lt_two_pow hPB hold
  have hmod : (m.g.PORTB ^^^ m.portb_old) % 256 = m.g.PORTB ^^^ m.portb_old :=
    Nat.mod_eq_of_lt hlt
  obtain ⟨_, hd0, ht0, hr0⟩ := sharedPrologue_spec m hPB
  obtain ⟨ht1, hd1, hr1⟩ := sharedStep_spec code htable 2 0x10 (sharedPrologue m)
  obtain ⟨ht2, hd2, hr2⟩ := sharedStep_spec code htable 3 0x20
    (sharedStep code 2 0x10 (sharedPrologue m))
  obtain ⟨ht3, hd3, hr3⟩ := sharedStep_spec code htable 4 0x40
    (sharedStep code 3 0x20 (sharedStep code 2 0x10 (sharedPrologue m)))
  obtain ⟨_, hd4, hr4⟩ := sharedStep_spec code htable 5 0x80
    (sharedStep code 4 0x40 (sharedStep code 3 0x20 (sharedStep code 2 0x10 (sharedPrologue m))))
  rw [hmod] at hd0
  rw [interrupt_handler_shared_eq code m hserve]
  refine ⟨by rw [hd4, hd3, hd2, hd1, hd0], ?_⟩
  rw [hr4, hr3, hr2, hr1, hr0, hd3, hd2, hd1, hd0, ht3, ht2, ht1, ht0]

/-- The file-scope state after one conditional call of the port-change branch:
the routine has run on it, or it is untouched. -/
theorem sharedStep_state (code : Nat → Globals → Globals) (src bit : Nat) (m : Machine) :
    (sharedStep code src bit m).g
      = if m.delta &&& bit ≠ 0 ∧ m.g.isr_callbacks src ≠ 0
        then code (m.g.isr_callbacks src) m.g else m.g := by
  unfold sharedStep callIsr
  split_ifs <;> rfl

/-- The file-scope state after the port-change branch, for routines that leave
the handler table alone: the routines of the sources whose bit is set in
`delta` and whose entry is non-null have run one after the other, in ascending
source order, starting from `sharedEntry`. -/
theorem interrupt_handler_shared_state (code : Nat → Globals → Globals) (m : Machine)
    (hserve : servesShared m.g) (hPB : m.g.PORTB < 256) (hold : m.portb_old < 256)
    (htable : ∀ fn g, (code fn g).isr_callbacks = g.isr_callbacks) :
    (interrupt_handler code m).g
      = ([2, 3, 4, 5].filter (fun k =>
            decide ((m.g.PORTB ^^^ m.portb_old) &&& sourceBit k ≠ 0 ∧
              m.g.isr_callbacks k ≠ 0))).foldl
          (fun g k => code (m.g.isr_callbacks k) g) (sharedEntry m.g) := by
  have hlt : m.g.PORTB ^^^ m.portb_old < 2 ^ 8 := Nat.xor_lt_two_pow hPB hold
  have hmod : (m.g.PORTB ^^^ m.portb_old) % 256 = m.g.PORTB ^^^ m.portb_old :=
    Nat.mod_eq_of_lt hlt
  obtain ⟨_, hd0, ht0, _⟩ := sharedPrologue_spec m hPB
  have hg0 : (sharedPrologue m).g = sharedEntry m.g := rfl
  obtain ⟨ht1, hd1, _⟩ := sharedStep_spec code htable 2 0x10 (sharedPrologue m)
  obtain ⟨ht2, hd2, _⟩ := sharedStep_spec code htable 3 0x20
    (sharedStep code 2 0x10 (sharedPrologue m))
  obtain ⟨ht3, hd3, _⟩ := sharedStep_spec code htable 4 0x40
    (sharedStep code 3 0x20 (sharedStep code 2 0x10 (sharedPrologue m)))
  have hg1 := sharedStep_state code 2 0x10 (sharedPrologue m)
  have hg2 := sharedStep_state code 3 0x20 (sharedStep code 2 0x10 (sharedPrologue m))
  have hg3 := sharedStep_state code 4 0x40
    (sharedStep code 3 0x20 (sharedStep code 2 0x10 (sharedPrologue m)))
  have hg4 := sharedStep_state code 5 0x80
    (sharedStep code 4 0x40 (sharedStep code 3 0x20 (sharedStep code 2 0x10 (sharedPrologue m))))
  rw [hmod] at hd0
  rw [hd0, ht0, hg0] at hg1
  rw [hd1, hd0, ht1, ht0, hg1] at hg2
  rw [hd2, hd1, hd0, ht2, ht1, ht0, hg2] at hg3
  rw [hd3, hd2, hd1, hd0, ht3, ht2, ht1, ht0, hg3] at hg4
  rw [interrupt_handler_shared_eq code m hserve, hg4]
  by_cases c2 : (m.g.PORTB ^^^ m.portb_old) &&& 0x10 ≠ 0 ∧ m.g.isr_callbacks 2 ≠ 0 <;>
  by_cases c3 : (m.g.PORTB ^^^ m.portb_old) &&& 0x20 ≠ 0 ∧ m.g.isr_callbacks 3 ≠ 0 <;>
  by_cases c4 : (m.g.PORTB ^^^ m.portb_old) &&& 0x40 ≠ 0 ∧ m.g.isr_callbacks 4 ≠ 0 <;>
  by_cases c5 : (m.g.PORTB ^^^ m.portb_old) &&& 0x80 ≠ 0 ∧ m.g.isr_callbacks 5 ≠ 0 <;>
  simp [c2, c3, c4, c5, sourceBit, List.filter, List.foldl]

/-- C5. Shared-line dispatch: when `interrupt_handler` serves the port-change
event (RBIF and RBIE set, neither dedicated line pending and enabled) and the
routines do not alter the handler table, then with
`delta = PORTB XOR portb_old` the calls it makes are exactly, in ascending
source order, those of the sources `k` in 2, 3, 4, 5 whose bit (0x10, 0x20,
0x40, 0x80) is set in `delta` and whose table entry is non-null.  In particular
when bits 0x10 and 0x80 are set and sources 2 and 5 are bound, the call of
source 2 is the first and the call of source 5 the last of the run.  The
routines are really run: the file-scope state at the end is the one obtained
by running exactly those routines, one after the other in ascending source
order, from the state with `portb` refreshed and `RBIF` cleared; a source that
is unbound or whose bit is unchanged contributes nothing to it. -/
theorem shared_line_dispatch (code : Nat → Globals → Globals) (m : Machine)
    (hserve : servesShared m.g) (hPB : m.g.PORTB < 256) (hold : m.portb_old < 256)
    (htable : ∀ fn g, (code fn g).isr_callbacks = g.isr_callbacks) :
    (interrupt_handler code m).delta = m.g.PORTB ^^^ m.portb_old ∧
    callsOf (interrupt_handler code m).trace
      = callsOf m.trace ++
        ([2, 3, 4, 5].filter (fun k =>
            decide ((m.g.PORTB ^^^ m.portb_old) &&& sourceBit k ≠ 0 ∧
              m.g.isr_callbacks k ≠ 0))).map (fun k => (k, m.g.isr_callbacks k)) ∧
    ((m.g.PORTB ^^^ m.portb_old) &&& 0x10 ≠ 0 → (m.g.PORTB ^^^ m.portb_old) &&& 0x80 ≠ 0 →
      m.g.isr_callbacks 2 ≠ 0 → m.g.isr_callbacks 5 ≠ 0 →
      ∃ mid : List (Nat × Nat),
        callsOf (interrupt_handler code m).trace
          = callsOf m.trace ++ (2, m.g.isr_callbacks 2) :: (mid ++ [(5, m.g.isr_callbacks 5)]) ∧
        ∀ c ∈ mid, c.1 = 3 ∨ c.1 = 4) ∧
    (interrupt_handler code m).g
      = ([2, 3, 4, 5].filter (fun k =>
            decide ((m.g.PORTB ^^^ m.portb_old) &&& sourceBit k ≠ 0 ∧
              m.g.isr_callbacks k ≠ 0))).foldl
          (fun g k => code (m.g.isr_callbacks k) g) (sharedEntry m.g) ∧
    ((m.g.PORTB ^^^ m.portb_old) &&& 0x10 ≠ 0 → (m.g.PORTB ^^^ m.portb_old) &&& 0x80 ≠ 0 →
      m.g.isr_callbacks 2 ≠ 0 → m.g.isr_callbacks 5 ≠ 0 →
      ((m.g.PORTB ^^^ m.portb_old) &&& 0x20 = 0 ∨ m.g.isr_callbacks 3 = 0) →
      ((m.g.PORTB ^^^ m.portb_old) &&& 0x40 = 0 ∨ m.g.isr_callbacks 4 = 0) →
      (interrupt_handler code m).g
        = code (m.g.isr_callbacks 5) (code (m.g.isr_callbacks 2) (sharedEntry m.g))) := by
  obtain ⟨hd, htr⟩ := interrupt_handler_shared_trace code m hserve hPB hold htable
  have hst := interrupt_handler_shared_state code m hserve hPB hold htable
  refine ⟨hd, ?_, ?_, hst, ?_⟩
  rotate_left 2
  · intro b2 b5 t2 t5 n3 n4
    have c3 : ¬ ((m.g.PORTB ^^^ m.portb_old) &&& 0x20 ≠ 0 ∧ m.g.isr_callbacks 3 ≠ 0) := by
      intro h; rcases n3 with n | n
      · exact h.1 n
      · exact h.2 n
    have c4 : ¬ ((m.g.PORTB ^^^ m.portb_old) &&& 0x40 ≠ 0 ∧ m.g.isr_callbacks 4 ≠ 0) := by
      intro h; rcases n4 with n | n
      · exact h.1 n
      · exact h.2 n
    have c2 : (m.g.PORTB ^^^ m.portb_old) &&& 0x10 ≠ 0 ∧ m.g.isr_callbacks 2 ≠ 0 := ⟨b2, t2⟩
    have c5 : (m.g.PORTB ^^^ m.portb_old) &&& 0x80 ≠ 0 ∧ m.g.isr_callbacks 5 ≠ 0 := ⟨b5, t5⟩
    rw [hst]
    simp [c2, c3, c4, c5, sourceBit, List.filter, List.foldl]
  · rw [htr]
    simp only [callsOf_append]
    by_cases c2 : (m.g.PORTB ^^^ m.portb_old) &&& 0x10 ≠ 0 ∧ m.g.isr_callbacks 2 ≠ 0 <;>
    by_cases c3 : (m.g.PORTB ^^^ m.portb_old) &&& 0x20 ≠ 0 ∧ m.g.isr_callbacks 3 ≠ 0 <;>
    by_cases c4 : (m.g.PORTB ^^^ m.portb_old) &&& 0x40 ≠ 0 ∧ m.g.isr_callbacks 4 ≠ 0 <;>
    by_cases c5 : (m.g.PORTB ^^^ m.portb_old) &&& 0x80 ≠ 0 ∧ m.g.isr_callbacks 5 ≠ 0 <;>
    simp [c2, c3, c4, c5, callsOf, sourceBit, List.filter]
  · intro b2 b5 t2 t5
    rw [htr]
    simp only [callsOf_append]
    by_cases c3 : (m.g.PORTB ^^^ m.portb_old) &&& 0x20 ≠ 0 ∧ m.g.isr_callbacks 3 ≠ 0 <;>
    by_cases c4 : (m.g.PORTB ^^^ m.portb_old) &&& 0x40 ≠ 0 ∧ m.g.isr_callbacks 4 ≠ 0
    · exact ⟨[(3, m.g.isr_callbacks 3), (4, m.g.isr_callbacks 4)],
        by simp [b2, b5, t2, t5, c3, c4, callsOf], by simp⟩
    · exact ⟨[(3, m.g.isr_callbacks 3)], by simp [b2, b5, t2, t5, c3, c4, callsOf], by simp⟩
    · exact ⟨[(4, m.g.isr_callbacks 4)], by simp [b2, b5, t2, t5, c3, c4, callsOf], by simp⟩
    · exact ⟨[], by simp [b2, b5, t2, t5, c3, c4, callsOf], by simp⟩

/-- Witness of C5: `PORTB = 0x90` against a zero snapshot, routine 7 bound to
source 2 and routine 9 to source 5: the calls are source 2 then source 5, the
final state is routine 9 run after routine 7, and routine 7 has stored 200 in
PWM slot 0. -/
theorem shared_line_dispatch_witness :
    callsOf (interrupt_handler sampleCode sampleMachine).trace = [(2, 7), (5, 9)] ∧
    (interrupt_handler sampleCode sampleMachine).g
      = sampleCode 9 (sampleCode 7 (sharedEntry sampleMachine.g)) ∧
    (interrupt_handler sampleCode sampleMachine).g.txdata.rc_pwm 0 = 200 :=
  ⟨((shared_line_dispatch sampleCode sampleMachine (by decide) (by decide) (by decide)
      (by
        intro fn g
        unfold sampleCode
        split_ifs <;> rfl)).2.1).trans (by decide),
   (shared_line_dispatch sampleCode sampleMachine (by decide) (by decide) (by decide)
      (by
        intro fn g
        unfold sampleCode
        split_ifs <;> rfl)).2.2.2.2 (by decide) (by decide) (by decide) (by decide)
      (Or.inl (by decide)) (Or.inl (by decide)),
   (congrArg (fun g : Globals => g.txdata.rc_pwm 0)
      ((shared_line_dispatch sampleCode sampleMachine (by decide) (by decide) (by decide)
        (by
          intro fn g
          unfold sampleCode
          split_ifs <;> rfl)).2.2.2.2 (by decide) (by decide) (by decide) (by decide)
        (Or.inl (by decide)) (Or.inl (by decide)))).trans (by decide)⟩

/-- The port-change branch of `interrupt_handler`, for arbitrary routines: the
statics and the trace it leaves. -/
theorem interrupt_handler_shared_frame (code : Nat → Globals → Globals) (m : Machine)
    (hserve : servesShared m.g) (hPB : m.g.PORTB < 256) :
    (interrupt_handler code m).portb_old = m.g.PORTB ∧
    (interrupt_handler code m).delta = (m.g.PORTB ^^^ m.portb_old) % 256 ∧
    ∃ rest : List Event,
      (interrupt_handler code m).trace = m.trace ++ Event.snapshot m.g.PORTB :: rest ∧
      snapshotsOf rest = [] ∧ rest.length ≤ 4 := by
  obtain ⟨ho0, hd0, _, hr0⟩ := sharedPrologue_spec m hPB
  obtain ⟨ho1, hd1, r1, hr1, hs1, hl1⟩ := sharedStep_frame code 2 0x10 (sharedPrologue m)
  obtain ⟨ho2, hd2, r2, hr2, hs2, hl2⟩ := sharedStep_frame code 3 0x20
    (sharedStep code 2 0x10 (sharedPrologue m))
  obtain ⟨ho3, hd3, r3, hr3, hs3, hl3⟩ := sharedStep_frame code 4 0x40
    (sharedStep code 3 0x20 (sharedStep code 2 0x10 (sharedPrologue m)))
  obtain ⟨ho4, hd4, r4, hr4, hs4, hl4⟩ := sharedStep_frame code 5 0x80
    (sharedStep code 4 0x40 (sharedStep code 3 0x20 (sharedStep code 2 0x10 (sharedPrologue m))))
  rw [interrupt_handler_shared_eq code m hserve]
  refine ⟨by rw [ho4, ho3, ho2, ho1, ho0], by rw [hd4, hd3, hd2, hd1, hd0],
    r1 ++ r2 ++ r3 ++ r4, ?_, ?_, ?_⟩
  · rw [hr4, hr3, hr2, hr1, hr0]
    simp only [List.append_assoc, List.singleton_append, List.cons_append, List.nil_append]
  · simp only [snapshotsOf_append, hs1, hs2, hs3, hs4, List.append_nil]
  · simp only [List.length_append]
    omega

/-- C6. Snapshot consistency: after `interrupt_handler` has served a
port-change event, whatever the previous snapshot, the register values, the
handler table and the routines do, `portb_old` equals the `PORTB` value read
at the start; that value is stored once, before every call of the run (the
events after it are at most four calls and no further store); and the next
port-change run computes its `delta` against it. -/
theorem snapshot_consistency (code : Nat → Globals → Globals) (m : Machine)
    (hserve : servesShared m.g) (hPB : m.g.PORTB < 256) :
    (interrupt_handler code m).portb_old = m.g.PORTB ∧
    snapshotsOf (interrupt_handler code m).trace = snapshotsOf m.trace ++ [m.g.PORTB] ∧
    (∃ rest : List Event,
      (interrupt_handler code m).trace = m.trace ++ Event.snapshot m.g.PORTB :: rest ∧
      snapshotsOf rest = [] ∧ rest.length ≤ 4) ∧
    (servesShared (interrupt_handler code m).g → (interrupt_handler code m).g.PORTB < 256 →
      (interrupt_handler code (interrupt_handler code m)).delta
        = (interrupt_handler code m).g.PORTB ^^^ m.g.PORTB) := by
  obtain ⟨ho, _, rest, hr, hs, hl⟩ := interrupt_handler_shared_frame code m hserve hPB
  refine ⟨ho, ?_, ⟨rest, hr, hs, hl⟩, ?_⟩
  · rw [hr, snapshotsOf_append]
    simp only [snapshotsOf, hs]
  · intro hserve2 hPB2
    obtain ⟨_, hd2, _⟩ :=
      interrupt_handler_shared_frame code (interrupt_handler code m) hserve2 hPB2
    rw [hd2, ho]
    have hlt : (interrupt_handler code m).g.PORTB ^^^ m.g.PORTB < 2 ^ 8 :=
      Nat.xor_lt_two_pow hPB2 hPB
    exact Nat.mod_eq_of_lt hlt

/-- Witness of C6: on the sample machine (`PORTB = 0x90`, two routines firing)
the snapshot left behind is 0x90. -/
theorem snapshot_consistency_witness :
    (interrupt_handler sampleCode sampleMachine).portb_old = 0x90 ∧
    snapshotsOf (interrupt_handler sampleCode sampleMachine).trace = [0x90] :=
  ⟨(snapshot_consistency sampleCode sampleMachine (by decide) (by decide)).1,
   (snapshot_consistency sampleCode sampleMachine (by decide) (by decide)).2.1⟩

/-! ## Encoding policy at the edges -/

/-- C11. The encoding of `analog_set` at the value -128: the guard
`sp != 128` never fails for a negative `sp`, so the decrement is applied,
`sp - 1` wraps to 127 as an `int8_t`, and the stored byte is 255, the highest
byte, not 0. -/
theorem analog_set_encodes_min_as_255 :
    encode_output (-128) = 255 ∧
    (analog_set 0 (-128) Globals.zero).txdata.rc_pwm 0 = 255 ∧
    (analog_set 0 (-128) Globals.zero).txdata.rc_pwm 0
      = (analog_set 0 127 Globals.zero).txdata.rc_pwm 0 ∧
    (analog_set 0 (-128) Globals.zero).txdata.rc_pwm 0 ≠ 0 := by
  decide

/-- C12. Mode encoding, for a mode field at least two bits wide (in
particular the one-byte field of the specification): after
`mode_set kAuton` the field holds 0x02 and `mode_get` returns `kAuton`; after
`mode_set` of any other mode the field holds 0x00 and `mode_get` returns
`kTelop`; `mode_set` changes no operator-input slot and nothing in the
command buffer. -/
theorem mode_set_encoding (w : Nat) (mode : CtrlMode) (g : Globals) (hw : 2 ≤ w) :
    (mode = CtrlMode.kAuton →
      (mode_set w mode g).rxdata.autonomous = 0x02 ∧
      mode_get (mode_set w mode g) = CtrlMode.kAuton) ∧
    (mode ≠ CtrlMode.kAuton →
      (mode_set w mode g).rxdata.autonomous = 0x00 ∧
      mode_get (mode_set w mode g) = CtrlMode.kTelop) ∧
    (mode_set w mode g).rxdata.oi_analog = g.rxdata.oi_analog ∧
    (mode_set w mode g).txdata = g.txdata := by
  have h4 : 2 ^ 2 ≤ 2 ^ w := Nat.pow_le_pow_right (by decide) hw
  have h2 : 2 % 2 ^ w = 2 := Nat.mod_eq_of_lt (by omega)
  refine ⟨?_, ?_, rfl, rfl⟩
  · intro hm
    have hf : (mode_set w mode g).rxdata.autonomous = 2 := by
      simp only [mode_set, hm, if_true, h2]
    refine ⟨hf, ?_⟩
    simp only [mode_get, hf]
    decide
  · intro hm
    have hf : (mode_set w mode g).rxdata.autonomous = 0 := by
      simp only [mode_set, hm, if_false, Nat.zero_mod]
    refine ⟨hf, ?_⟩
    simp only [mode_get, hf]
    decide

/-- Witness of C12: the one-byte field, set to autonomous and then to
teleop. -/
theorem mode_set_encoding_witness :
    ((mode_set 8 CtrlMode.kAuton Globals.zero).rxdata.autonomous = 0x02 ∧
      mode_get (mode_set 8 CtrlMode.kAuton Globals.zero) = CtrlMode.kAuton) ∧
    ((mode_set 8 CtrlMode.kTelop (mode_set 8 CtrlMode.kAuton Globals.zero)).rxdata.autonomous
        = 0x00 ∧
      mode_get (mode_set 8 CtrlMode.kTelop (mode_set 8 CtrlMode.kAuton Globals.zero))
        = CtrlMode.kTelop) :=
  ⟨(mode_set_encoding 8 CtrlMode.kAuton Globals.zero (by decide)).1 rfl,
   (mode_set_encoding 8 CtrlMode.kTelop (mode_set 8 CtrlMode.kAuton Globals.zero)
      (by decide)).2.1 (by decide)⟩

/-- With a one-bit mode field the store of 0x02 would keep only bit 0, and
`mode_get` would read `kTelop` back. -/
theorem mode_set_one_bit (g : Globals) :
    (mode_set 1 CtrlMode.kAuton g).rxdata.autonomous = 0 ∧
    mode_get (mode_set 1 CtrlMode.kAuton g) = CtrlMode.kTelop :=
  ⟨rfl, rfl⟩

/-- C13, as stated, fails: with the mode field holding 0x01, a value other
than 0x02, `mode_get` returns `kAuton`, not `kTelop`. -/
theorem mode_get_unrecognized_counterexample :
    ({ Globals.zero with
        rxdata := { oi_analog := fun _ => 0, autonomous := 0x01 } } : Globals).rxdata.autonomous
      ≠ 0x02 ∧
    mode_get { Globals.zero with rxdata := { oi_analog := fun _ => 0, autonomous := 0x01 } }
      = CtrlMode.kAuton ∧
    mode_get { Globals.zero with rxdata := { oi_analog := fun _ => 0, autonomous := 0x01 } }
      ≠ CtrlMode.kTelop := by
  decide

/-- C13, amended: `mode_get` returns `kTelop` exactly when the mode field is
0x00, and `kAuton` for every non-zero value of the field, 0x02 and any
unrecognized value such as 0x01 alike. -/
theorem mode_get_nonzero_is_auton (g : Globals) :
    (mode_get g = CtrlMode.kTelop ↔ g.rxdata.autonomous = 0x00) ∧
    (mode_get g = CtrlMode.kAuton ↔ g.rxdata.autonomous ≠ 0x00) := by
  unfold mode_get
  by_cases h : g.rxdata.autonomous = 0
  · simp [h]
  · simp [h]

/-! ## Enabling interrupts: theorems -/

theorem bitfieldHi_testBit (x i j : Nat) (hj : j < 8) :
    (bitfieldHi x i).testBit j = (x.testBit j || decide (i = j)) :=
  BIT_HI_testBit x i j hj

/-- The state after `interrupt_enable` of a shared-line source, written out. -/
theorem interrupt_enable_shared_eq (k : Nat) (g : Globals) (hlo : 2 ≤ k) (hhi : k ≤ 5) :
    interrupt_enable k g
      = { g with
            TRISB := bitfieldHi (bitfieldHi (bitfieldHi (bitfieldHi g.TRISB 4) 5) 6) 7,
            RBIF := false, RBIE := true } := by
  interval_cases k <;> rfl

/-- C14. Enabling any shared-line source arms all four: for every source `k`
in 2..5 and every prior state, `interrupt_enable k` gives the same state
whichever `k` was passed; in it the direction bits `TRISB4..TRISB7` are 1,
`RBIF` is cleared and `RBIE` is set; the lower `TRISB` bits, the handler
table, the port snapshot and the dedicated-line bits (`INT2`/`INT3` flag, edge
and enable) are unchanged. -/
theorem interrupt_enable_shared_arms_all (k k' : Nat) (g : Globals)
    (hk : 2 ≤ k ∧ k ≤ 5) (hk' : 2 ≤ k' ∧ k' ≤ 5) :
    interrupt_enable k g = interrupt_enable k' g ∧
    (∀ j, 4 ≤ j → j < 8 → (interrupt_enable k g).TRISB.testBit j = true) ∧
    (∀ j, j < 4 → (interrupt_enable k g).TRISB.testBit j = g.TRISB.testBit j) ∧
    (interrupt_enable k g).RBIF = false ∧
    (interrupt_enable k g).RBIE = true ∧
    (interrupt_enable k g).isr_callbacks = g.isr_callbacks ∧
    (interrupt_enable k g).portb = g.portb ∧
    ((interrupt_enable k g).INT2IF = g.INT2IF ∧ (interrupt_enable k g).INTEDG2 = g.INTEDG2 ∧
      (interrupt_enable k g).INT2IE = g.INT2IE) ∧
    ((interrupt_enable k g).INT3IF = g.INT3IF ∧ (interrupt_enable k g).INTEDG3 = g.INTEDG3 ∧
      (interrupt_enable k g).INT3IE = g.INT3IE) := by
  have e := interrupt_enable_shared_eq k g hk.1 hk.2
  have e' := interrupt_enable_shared_eq k' g hk'.1 hk'.2
  refine ⟨e.trans e'.symm, ?_, ?_, ?_, ?_, ?_, ?_, ?_, ?_⟩
  · intro j h4 h8
    rw [e]
    simp only [bitfieldHi_testBit _ _ j h8]
    have : j = 4 ∨ j = 5 ∨ j = 6 ∨ j = 7 := by omega
    rcases this with h | h | h | h <;> simp [h]
  · intro j h4
    have h8 : j < 8 := by omega
    rw [e]
    simp only [bitfieldHi_testBit _ _ j h8]
    have n4 : ¬ 4 = j := by omega
    have n5 : ¬ 5 = j := by omega
    have n6 : ¬ 6 = j := by omega
    have n7 : ¬ 7 = j := by omega
    simp [n4, n5, n6, n7]
  all_goals rw [e]
  · exact ⟨rfl, rfl, rfl⟩
  · exact ⟨rfl, rfl, rfl⟩

/-- Witness of C14: sources 3 and 5 on the zero state both give
`TRISB = 0xF0`, `RBIF` clear, `RBIE` set. -/
theorem interrupt_enable_shared_arms_all_witness :
    interrupt_enable 3 Globals.zero = interrupt_enable 5 Globals.zero ∧
    (interrupt_enable 3 Globals.zero).TRISB = 0xF0 ∧
    (interrupt_enable 3 Globals.zero).RBIE = true :=
  ⟨(interrupt_enable_shared_arms_all 3 5 Globals.zero (by decide) (by decide)).1,
   by decide,
   (interrupt_enable_shared_arms_all 3 5 Globals.zero (by decide) (by decide)).2.2.2.2.1⟩

/-! ## Interrupt dispatch: the branches of `interrupt_handler` -/

theorem interrupt_handler_int2 (code : Nat → Globals → Globals) (m : Machine)
    (h : m.g.INT2IF = true ∧ m.g.INT2IE = true) :
    interrupt_handler code m
      = if m.g.isr_callbacks 0 ≠ 0 then callIsr code 0 { m with g := clearINT2IF m.g }
        else { m with g := clearINT2IF m.g } := by
  unfold interrupt_handler
  rw [if_pos h]
  rfl

theorem interrupt_handler_int3 (code : Nat → Globals → Globals) (m : Machine)
    (h2 : ¬ (m.g.INT2IF = true ∧ m.g.INT2IE = true))
    (h : m.g.INT3IF = true ∧ m.g.INT3IE = true) :
    interrupt_handler code m
      = if m.g.isr_callbacks 1 ≠ 0 then callIsr code 1 { m with g := clearINT3IF m.g }
        else { m with g := clearINT3IF m.g } := by
  unfold interrupt_handler
  rw [if_neg h2, if_pos h]
  rfl

theorem interrupt_handler_idle (code : Nat → Globals → Globals) (m : Machine)
    (h2 : ¬ (m.g.INT2IF = true ∧ m.g.INT2IE = true))
    (h3 : ¬ (m.g.INT3IF = true ∧ m.g.INT3IE = true))
    (hB : ¬ (m.g.RBIF = true ∧ m.g.RBIE = true)) :
    interrupt_handler code m = m := by
  unfold interrupt_handler
  rw [if_neg h2, if_neg h3, if_neg hB]

/-- One conditional call of the port-change branch appends nothing or one call
of its own source. -/
theorem sharedStep_calls (code : Nat → Globals → Globals) (src bit : Nat) (m : Machine) :
    ∃ r : List Event, (sharedStep code src bit m).trace = m.trace ++ r ∧
      ∀ c ∈ callsOf r, c.1 = src := by
  unfold sharedStep
  split_ifs
  · refine ⟨[Event.call src (m.g.isr_callbacks src)], rfl, ?_⟩
    intro c hc
    simp only [callsOf, List.mem_singleton] at hc
    rw [hc]
  · exact ⟨[], (List.append_nil _).symm, fun c hc => absurd hc (List.not_mem_nil c)⟩

/-- The events a run of `interrupt_handler` appends, by source: a call of
source 0 needs `INT2` pending and enabled, a call of source 1 needs `INT3`
pending and enabled, a call of a source 2..5 needs the port-change flag
pending and enabled with no dedicated line served. -/
theorem interrupt_handler_calls (code : Nat → Globals → Globals) (m : Machine) :
    ∃ new : List Event, (interrupt_handler code m).trace = m.trace ++ new ∧
      ∀ c ∈ callsOf new,
        (c.1 = 0 ∧ m.g.INT2IF = true ∧ m.g.INT2IE = true) ∨
        (c.1 = 1 ∧ m.g.INT3IF = true ∧ m.g.INT3IE = true ∧
          ¬ (m.g.INT2IF = true ∧ m.g.INT2IE = true)) ∨
        (2 ≤ c.1 ∧ c.1 ≤ 5 ∧ servesShared m.g) := by
  by_cases h2 : m.g.INT2IF = true ∧ m.g.INT2IE = true
  · rw [interrupt_handler_int2 code m h2]
    split_ifs
    · refine ⟨[Event.call 0 (m.g.isr_callbacks 0)], rfl, ?_⟩
      intro c hc
      simp only [callsOf, List.mem_singleton] at hc
      exact Or.inl ⟨by rw [hc], h2.1, h2.2⟩
    · exact ⟨[], (List.append_nil _).symm, fun c hc => absurd hc (List.not_mem_nil c)⟩
  · by_cases h3 : m.g.INT3IF = true ∧ m.g.INT3IE = true
    · rw [interrupt_handler_int3 code m h2 h3]
      split_ifs
      · refine ⟨[Event.call 1 (m.g.isr_callbacks 1)], rfl, ?_⟩
        intro c hc
        simp only [callsOf, List.mem_singleton] at hc
        exact Or.inr (Or.inl ⟨by rw [hc], h3.1, h3.2, h2⟩)
      · exact ⟨[], (List.append_nil _).symm, fun c hc => absurd hc (List.not_mem_nil c)⟩
    · by_cases hB : m.g.RBIF = true ∧ m.g.RBIE = true
      · have hserve : servesShared m.g := ⟨hB.1, hB.2, h2, h3⟩
        obtain ⟨r1, hr1, hc1⟩ := sharedStep_calls code 2 0x10 (sharedPrologue m)
        obtain ⟨r2, hr2, hc2⟩ := sharedStep_calls code 3 0x20
          (sharedStep code 2 0x10 (sharedPrologue m))
        obtain ⟨r3, hr3, hc3⟩ := sharedStep_calls code 4 0x40
          (sharedStep code 3 0x20 (sharedStep code 2 0x10 (sharedPrologue m)))
        obtain ⟨r4, hr4, hc4⟩ := sharedStep_calls code 5 0x80
          (sharedStep code 4 0x40 (sharedStep code 3 0x20
            (sharedStep code 2 0x10 (sharedPrologue m))))
        rw [interrupt_handler_shared_eq code m hserve]
        refine ⟨Event.snapshot (m.g.PORTB % 256 % 256) :: (r1 ++ r2 ++ r3 ++ r4), ?_, ?_⟩
        · rw [hr4, hr3, hr2, hr1]
          simp only [sharedPrologue, List.append_assoc, List.singleton_append,
            List.cons_append, List.nil_append]
        · intro c hc
          simp only [callsOf, callsOf_append, List.mem_append] at hc
          refine Or.inr (Or.inr ?_)
          rcases hc with ((hc | hc) | hc) | hc
          · have := hc1 c hc; exact ⟨by omega, by omega, hserve⟩
          · have := hc2 c hc; exact ⟨by omega, by omega, hserve⟩
          · have := hc3 c hc; exact ⟨by omega, by omega, hserve⟩
          · have := hc4 c hc; exact ⟨by omega, by omega, hserve⟩
      · rw [interrupt_handler_idle code m h2 h3 hB]
        exact ⟨[], (List.append_nil _).symm, fun c hc => absurd hc (List.not_mem_nil c)⟩

/-! ## Interrupt dispatch: priority and arming -/

/-- C17. Dedicated lines have priority over the shared line: with the
port-change flag pending and enabled, if `INT2` is pending and enabled the run
serves source 0 only: it clears `INT2IF`, makes at most the call of source 0,
leaves the statics `portb_old` and `delta` alone and records no call of a
source 2..5; the state the routine receives (and the final state, when the
routines leave the flags alone) still has `RBIF` set and `INT3IF` as before,
so a pending source 1 stays pending.  If `INT2` is not served and `INT3` is
pending and enabled, the same holds for source 1. -/
theorem dedicated_line_priority (code : Nat → Globals → Globals) (m : Machine)
    (hB : m.g.RBIF = true ∧ m.g.RBIE = true) :
    (m.g.INT2IF = true ∧ m.g.INT2IE = true →
      (interrupt_handler code m).portb_old = m.portb_old ∧
      (interrupt_handler code m).delta = m.delta ∧
      (interrupt_handler code m).trace
        = m.trace ++ (if m.g.isr_callbacks 0 ≠ 0
                      then [Event.call 0 (m.g.isr_callbacks 0)] else []) ∧
      (interrupt_handler code m).g
        = (if m.g.isr_callbacks 0 ≠ 0 then code (m.g.isr_callbacks 0) (clearINT2IF m.g)
           else clearINT2IF m.g) ∧
      flagsOf (clearINT2IF m.g) = (false, m.g.INT3IF, true) ∧
      (clearINT2IF m.g).portb = m.g.portb ∧
      ((∀ fn g, flagsOf (code fn g) = flagsOf g) →
        flagsOf (interrupt_handler code m).g = (false, m.g.INT3IF, true))) ∧
    (¬ (m.g.INT2IF = true ∧ m.g.INT2IE = true) → m.g.INT3IF = true ∧ m.g.INT3IE = true →
      (interrupt_handler code m).portb_old = m.portb_old ∧
      (interrupt_handler code m).delta = m.delta ∧
      (interrupt_handler code m).trace
        = m.trace ++ (if m.g.isr_callbacks 1 ≠ 0
                      then [Event.call 1 (m.g.isr_callbacks 1)] else []) ∧
      (interrupt_handler code m).g
        = (if m.g.isr_callbacks 1 ≠ 0 then code (m.g.isr_callbacks 1) (clearINT3IF m.g)
           else clearINT3IF m.g) ∧
      flagsOf (clearINT3IF m.g) = (m.g.INT2IF, false, true) ∧
      (clearINT3IF m.g).portb = m.g.portb ∧
      ((∀ fn g, flagsOf (code fn g) = flagsOf g) →
        flagsOf (interrupt_handler code m).g = (m.g.INT2IF, false, true))) := by
  have hf2 : flagsOf (clearINT2IF m.g) = (false, m.g.INT3IF, true) := by
    simp only [flagsOf, clearINT2IF, hB.1]
  have hf3 : flagsOf (clearINT3IF m.g) = (m.g.INT2IF, false, true) := by
    simp only [flagsOf, clearINT3IF, hB.1]
  constructor
  · intro h2
    rw [interrupt_handler_int2 code m h2]
    split_ifs with hb
    · refine ⟨rfl, rfl, rfl, rfl, hf2, rfl, ?_⟩
      intro hc
      exact (hc _ _).trans hf2
    · exact ⟨rfl, rfl, (List.append_nil _).symm, rfl, hf2, rfl, fun _ => hf2⟩
  · intro h2 h3
    rw [interrupt_handler_int3 code m h2 h3]
    split_ifs with hb
    · refine ⟨rfl, rfl, rfl, rfl, hf3, rfl, ?_⟩
      intro hc
      exact (hc _ _).trans hf3
    · exact ⟨rfl, rfl, (List.append_nil _).symm, rfl, hf3, rfl, fun _ => hf3⟩

/-- Witness of C17: with all three lines pending, enabled and bound, one run
calls the routine of source 0 only and leaves `INT3IF` and `RBIF` set. -/
theorem dedicated_line_priority_witness :
    (interrupt_handler sampleCode busyMachine).trace = [Event.call 0 10] ∧
    flagsOf (interrupt_handler sampleCode busyMachine).g = (false, true, true) :=
  ⟨((dedicated_line_priority sampleCode busyMachine (by decide)).1 (by decide)).2.2.1,
   ((dedicated_line_priority sampleCode busyMachine (by decide)).1 (by decide)).2.2.2.2.2.2
     (by
       intro fn g
       unfold sampleCode
       split_ifs <;> rfl)⟩

/-- C18. Dedicated-line dispatch: when source 0 (`INT2`) is the line served,
`interrupt_handler` clears `INT2IF` first; a bound routine is called exactly
once and starts in the state whose `INT2IF` is already 0; an unbound source
gives no call, only the cleared flag.  The same holds for source 1 (`INT3`)
when it is the line served. -/
theorem dedicated_line_dispatch (code : Nat → Globals → Globals) (m : Machine) :
    (m.g.INT2IF = true ∧ m.g.INT2IE = true →
      (clearINT2IF m.g).INT2IF = false ∧
      (m.g.isr_callbacks 0 ≠ 0 →
        (interrupt_handler code m).g = code (m.g.isr_callbacks 0) (clearINT2IF m.g) ∧
        (interrupt_handler code m).trace = m.trace ++ [Event.call 0 (m.g.isr_callbacks 0)]) ∧
      (m.g.isr_callbacks 0 = 0 →
        interrupt_handler code m = { m with g := clearINT2IF m.g })) ∧
    (¬ (m.g.INT2IF = true ∧ m.g.INT2IE = true) → m.g.INT3IF = true ∧ m.g.INT3IE = true →
      (clearINT3IF m.g).INT3IF = false ∧
      (m.g.isr_callbacks 1 ≠ 0 →
        (interrupt_handler code m).g = code (m.g.isr_callbacks 1) (clearINT3IF m.g) ∧
        (interrupt_handler code m).trace = m.trace ++ [Event.call 1 (m.g.isr_callbacks 1)]) ∧
      (m.g.isr_callbacks 1 = 0 →
        interrupt_handler code m = { m with g := clearINT3IF m.g })) := by
  constructor
  · intro h2
    rw [interrupt_handler_int2 code m h2]
    refine ⟨rfl, ?_, ?_⟩
    · intro hb
      rw [if_pos hb]
      exact ⟨rfl, rfl⟩
    · intro hb
      rw [if_neg (not_not.mpr hb)]
  · intro h2 h3
    rw [interrupt_handler_int3 code m h2 h3]
    refine ⟨rfl, ?_, ?_⟩
    · intro hb
      rw [if_pos hb]
      exact ⟨rfl, rfl⟩
    · intro hb
      rw [if_neg (not_not.mpr hb)]

/-- Witness of C18: source 0 pending, enabled and bound to routine 10: one
call of it is recorded. -/
theorem dedicated_line_dispatch_witness :
    (interrupt_handler sampleCode busyMachine).trace
      = busyMachine.trace ++ [Event.call 0 (busyMachine.g.isr_callbacks 0)] :=
  (((dedicated_line_dispatch sampleCode busyMachine).1 (by decide)).2.1 (by decide)).2

/-- C20. A source that is not armed is never dispatched: when none of the
three (flag and enable) pairs holds, `interrupt_handler` returns the machine
unchanged (no call, no flag and no snapshot written); and for every source
`k < 6` whose enable bit is clear, whatever its flag and its table entry, the
events of the run hold no call of source `k`. -/
theorem unarmed_source_not_dispatched (code : Nat → Globals → Globals) (m : Machine) :
    (¬ (m.g.INT2IF = true ∧ m.g.INT2IE = true) → ¬ (m.g.INT3IF = true ∧ m.g.INT3IE = true) →
      ¬ (m.g.RBIF = true ∧ m.g.RBIE = true) → interrupt_handler code m = m) ∧
    (∀ k, k < 6 → enableBit m.g k = false →
      ∃ new : List Event, (interrupt_handler code m).trace = m.trace ++ new ∧
        ∀ c ∈ callsOf new, c.1 ≠ k) := by
  refine ⟨interrupt_handler_idle code m, ?_⟩
  intro k hk hen
  obtain ⟨new, htr, hsrc⟩ := interrupt_handler_calls code m
  refine ⟨new, htr, ?_⟩
  intro c hc hck
  rcases hsrc c hc with ⟨h0, _, hE⟩ | ⟨h1, _, hE, _⟩ | ⟨hlo, _, hserve⟩
  · have hk0 : k = 0 := by omega
    subst hk0
    simp only [enableBit] at hen
    rw [hE] at hen
    exact absurd hen (by decide)
  · have hk1 : k = 1 := by omega
    subst hk1
    simp only [enableBit] at hen
    rw [hE] at hen
    exact absurd hen (by decide)
  · have hE := hserve.2.1
    have hk2 : 2 ≤ k := by omega
    have hen' : m.g.RBIE = false := by
      match k, hk2, hen with
      | k + 2, _, hen => simpa [enableBit] using hen
    rw [hE] at hen'
    exact absurd hen' (by decide)

/-- Witness of C20: the busy machine with `INT2IE` cleared (flag still set,
routine still bound) serves source 1 and records no call of source 0. -/
theorem unarmed_source_not_dispatched_witness :
    ∃ new : List Event,
      (interrupt_handler sampleCode { busyMachine with
          g := { busyMachine.g with INT2IE := false } }).trace
        = ({ busyMachine with g := { busyMachine.g with INT2IE := false } } : Machine).trace
            ++ new ∧
      ∀ c ∈ callsOf new, c.1 ≠ 0 :=
  (unarmed_source_not_dispatched sampleCode
      { busyMachine with g := { busyMachine.g with INT2IE := false } }).2 0 (by decide) rfl

/-! ## Initialisation and the first port-change event -/

/-- The fields `pin_set_io` leaves alone, for every pin index. -/
theorem pin_set_io_frame (i : Nat) (mode : PinMode) (g : Globals) :
    (pin_set_io i mode g).portb = g.portb ∧
    (pin_set_io i mode g).PORTB = g.PORTB ∧
    (pin_set_io i mode g).NEW_SPI_DATA = g.NEW_SPI_DATA := by
  simp only [pin_set_io]
  split <;> exact ⟨rfl, rfl, rfl⟩

theorem pin_loop_frame (l : List Nat) (g : Globals) :
    (l.foldl (fun acc i => pin_set_io i PinMode.kInput acc) g).portb = g.portb ∧
    (l.foldl (fun acc i => pin_set_io i PinMode.kInput acc) g).PORTB = g.PORTB ∧
    (l.foldl (fun acc i => pin_set_io i PinMode.kInput acc) g).NEW_SPI_DATA
      = g.NEW_SPI_DATA := by
  induction l generalizing g with
  | nil => exact ⟨rfl, rfl, rfl⟩
  | cons a t ih =>
    rw [List.foldl_cons]
    obtain ⟨h1, h2, h3⟩ := ih (pin_set_io a PinMode.kInput g)
    obtain ⟨f1, f2, f3⟩ := pin_set_io_frame a PinMode.kInput g
    exact ⟨h1.trans f1, h2.trans f2, h3.trans f3⟩

/-- The function `setup_1` records the port in the global `portb` and clears
the new-data flag. -/
theorem setup_1_portb (ifi : Globals → Globals) (g : Globals) :
    (setup_1 ifi g).portb = (ifi g).PORTB % 256 ∧
    (setup_1 ifi g).PORTB = (ifi g).PORTB ∧
    (setup_1 ifi g).NEW_SPI_DATA = false := by
  unfold setup_1
  exact pin_loop_frame (List.range 16)
    { ifi g with portb := (ifi g).PORTB % 256, NEW_SPI_DATA := false,
                 txdata := { (ifi g).txdata with pwm_mask := 0xFF } }

/-- The first port-change run after program start takes `delta` against the
zero-initialised static `portb_old`, whatever `setup_1` stored in `portb`. -/
theorem first_shared_delta (code : Nat → Globals → Globals) (g : Globals)
    (hserve : servesShared g) (hPB : g.PORTB < 256) :
    (interrupt_handler code { Machine.start g with g := g }).delta = g.PORTB := by
  obtain ⟨_, hd, _⟩ :=
    interrupt_handler_shared_frame code { Machine.start g with g := g } hserve hPB
  rw [hd]
  simp only [Machine.start, Nat.xor_zero]
  exact Nat.mod_eq_of_lt hPB

/-- C16. The first port-change event after `setup_1`, with `PORTB` unchanged
at 0x10 since `setup_1` recorded it in `portb`: `interrupt_handler` takes
`delta` against the static `portb_old`, still zero, so `delta` is 0x10, not 0,
and the routine of source 2 is called. -/
theorem first_dispatch_ignores_setup_snapshot :
    unchangedPortMachine.g.portb = 0x10 ∧
    unchangedPortMachine.g.PORTB = 0x10 ∧
    servesShared unchangedPortMachine.g ∧
    (interrupt_handler sampleCode unchangedPortMachine).delta = 0x10 ∧
    callsOf (interrupt_handler sampleCode unchangedPortMachine).trace = [(2, 7)] := by
  decide

/-! ## The new-data flag -/

/-- No call from normal context raises the new-data flag. -/
theorem callRun_flag (ifi : Globals → Globals) (c : Call) (g : Globals)
    (h : g.NEW_SPI_DATA = false) : (c.run ifi g).NEW_SPI_DATA = false := by
  cases c with
  | setup_1 => exact (setup_1_portb ifi g).2.2
  | new_data_received => exact h
  | consume_new_state => rfl
  | mode_get => exact h
  | mode_set w mode => exact h
  | pin_set_io i mode => exact ((pin_set_io_frame i mode g).2.2).trans h
  | digital_get i => exact h
  | analog_oi_get ain => exact h
  | analog_set aout sp =>
    show (analog_set aout sp g).NEW_SPI_DATA = false
    unfold analog_set
    split_ifs <;> exact h
  | motor_set aout sp =>
    show (analog_set aout sp g).NEW_SPI_DATA = false
    unfold analog_set
    split_ifs <;> exact h
  | servo_set aout sp =>
    show (analog_set aout sp g).NEW_SPI_DATA = false
    unfold analog_set
    split_ifs <;> exact h
  | interrupt_reg_isr index isr => exact h
  | interrupt_enable index =>
    show (interrupt_enable index g).NEW_SPI_DATA = false
    unfold interrupt_enable
    split <;> exact h

theorem sharedStep_flag (code : Nat → Globals → Globals)
    (hcode : ∀ fn g, (code fn g).NEW_SPI_DATA = g.NEW_SPI_DATA)
    (src bit : Nat) (m : Machine) :
    (sharedStep code src bit m).g.NEW_SPI_DATA = m.g.NEW_SPI_DATA := by
  unfold sharedStep
  split_ifs
  · exact hcode _ _
  · rfl

/-- A run of `interrupt_handler` whose routines leave the new-data flag alone
leaves it alone. -/
theorem interrupt_handler_flag (code : Nat → Globals → Globals)
    (hcode : ∀ fn g, (code fn g).NEW_SPI_DATA = g.NEW_SPI_DATA) (m : Machine) :
    (interrupt_handler code m).g.NEW_SPI_DATA = m.g.NEW_SPI_DATA := by
  by_cases h2 : m.g.INT2IF = true ∧ m.g.INT2IE = true
  · rw [interrupt_handler_int2 code m h2]
    split_ifs
    · exact hcode _ _
    · rfl
  · by_cases h3 : m.g.INT3IF = true ∧ m.g.INT3IE = true
    · rw [interrupt_handler_int3 code m h2 h3]
      split_ifs
      · exact hcode _ _
      · rfl
    · by_cases hB : m.g.RBIF = true ∧ m.g.RBIE = true
      · rw [interrupt_handler_shared_eq code m ⟨hB.1, hB.2, h2, h3⟩,
          sharedStep_flag code hcode, sharedStep_flag code hcode,
          sharedStep_flag code hcode, sharedStep_flag code hcode]
        rfl
      · rw [interrupt_handler_idle code m h2 h3 hB]

theorem runSteps_flag (ifi : Globals → Globals) (code : Nat → Globals → Globals)
    (hcode : ∀ fn g, (code fn g).NEW_SPI_DATA = g.NEW_SPI_DATA)
    (steps : List Step) (m : Machine) (h : m.g.NEW_SPI_DATA = false) :
    (runSteps ifi code steps m).g.NEW_SPI_DATA = false := by
  unfold runSteps
  induction steps generalizing m with
  | nil => exact h
  | cons st t ih =>
    rw [List.foldl_cons]
    apply ih
    cases st with
    | api c => exact callRun_flag ifi c m.g h
    | irq => exact (interrupt_handler_flag code hcode m).trans h

/-- C15. New-data flag semantics: `new_data_received` returns the current
`NEW_SPI_DATA` flag and, as a step, leaves the state as it is; once the
transport has delivered (flag set) and the consumer has run
`consume_new_state`, `new_data_received` is false after every sequence of
later steps (calls of the functions of `hax.c`, further `consume_new_state`,
runs of `interrupt_handler` whose routines leave the flag alone), and true
again as soon as the transport delivers again. -/
theorem new_data_flag_semantics (ifi : Globals → Globals) (code : Nat → Globals → Globals)
    (hcode : ∀ fn g, (code fn g).NEW_SPI_DATA = g.NEW_SPI_DATA)
    (m : Machine) (rx rx' : RxData) (steps : List Step) :
    new_data_received m.g = m.g.NEW_SPI_DATA ∧
    Call.new_data_received.run ifi m.g = m.g ∧
    new_data_received (transport_deliver rx m.g) = true ∧
    new_data_received
      (runSteps ifi code steps
        { m with g := consume_new_state (transport_deliver rx m.g) }).g = false ∧
    new_data_received
      (transport_deliver rx'
        (runSteps ifi code steps
          { m with g := consume_new_state (transport_deliver rx m.g) }).g) = true :=
  ⟨rfl, rfl, rfl,
   runSteps_flag ifi code hcode steps
     { m with g := consume_new_state (transport_deliver rx m.g) } rfl,
   rfl⟩

/-- Witness of C15: after a delivery and `consume_new_state`, a later
`analog_set`, a run of `interrupt_handler` and a `mode_set` leave
`new_data_received` false. -/
theorem new_data_flag_semantics_witness :
    new_data_received
      (runSteps (fun g => g) sampleCode
        [Step.api (Call.analog_set 0 5), Step.irq, Step.api (Call.mode_set 8 CtrlMode.kAuton)]
        { busyMachine with
            g := consume_new_state
              (transport_deliver Globals.zero.rxdata busyMachine.g) }).g = false :=
  (new_data_flag_semantics (fun g => g) sampleCode
    (by
      intro fn g
      unfold sampleCode
      split_ifs <;> rfl)
    busyMachine Globals.zero.rxdata Globals.zero.rxdata
    [Step.api (Call.analog_set 0 5), Step.irq,
      Step.api (Call.mode_set 8 CtrlMode.kAuton)]).2.2.2.1

end Hax
